import Mathlib

/-!
# inx-spammer: proof-of-work orchestration and basic-output selection

A shallow embedding of `pkg/pow/pow.go` (`DoPoW`) and `pkg/spammer/basic.go`
(`basicOutputSend`, `basicOutputSendNativeTokens`).

Go code with side effects is embedded as state passing.  Collaborators that
live outside the two files (the serializer, the miner, the tip refresher, the
outer context, the submission step) are fields of an environment record, so a
run of the code is a function of the environment and the inputs.  Every call
of a collaborator is recorded in a trace.
-/

namespace InxSpammer

/-! ## Go error values -/

/-- Format strings of the `fmt.Errorf` calls of the two source files; each wraps
its operand with `%w`. -/
inductive Wrapping where
  /-- The text `unable to perform PoW as block can't be serialized: %w`. -/
  | cantSerialize
  /-- The text `%w: basic outputs`. -/
  | basicOutputs
  /-- The text `%w: filtered basic outputs`. -/
  | filteredBasicOutputs
  /-- The text `%w: basic output`. -/
  | basicOutput
deriving DecidableEq, Repr

/-- Error values seen by the two source files.  `serializer c` is an error value
of the block serializer (package `serializer` of hive.go), which is none of
the sentinels below; `other c` is any further error value; `wrapped w e` is
the value built by `fmt.Errorf` with format `w` around `e`. -/
inductive GoError where
  /-- The sentinel `common.ErrOperationAborted`. -/
  | ErrOperationAborted
  /-- The sentinel `common.ErrNoUTXOAvailable`. -/
  | ErrNoUTXOAvailable
  /-- The sentinel `common.ErrMaxOutputsCountExceeded`. -/
  | ErrMaxOutputsCountExceeded
  /-- The sentinel `pow.ErrCancelled`. -/
  | ErrCancelled
  | serializer (code : Nat)
  | other (code : Nat)
  | wrapped (w : Wrapping) (inner : GoError)
deriving DecidableEq, Repr

deriving instance DecidableEq for Except

/-- Go's `errors.Is(err, target)`: `err` or an error in its `%w` chain equals
`target`. -/
def GoError.Is : GoError → GoError → Bool
  | .wrapped w inner, target => decide (GoError.wrapped w inner = target) || inner.Is target
  | err, target => decide (err = target)

/-! ## `pkg/pow/pow.go` -/

/-- The constant `nonceBytes`, `len(uint64)`. -/
def nonceBytes : Nat := 8

abbrev BlockID := Nat

/-- The fields of `iotago.Block`; `Nonce` is a `uint64`, only ever copied. -/
structure Block where
  ProtocolVersion : Nat
  Parents : List BlockID
  Payload : List Nat
  Nonce : Nat
deriving DecidableEq, Repr

/-- The assignment `block.Parents = tips`. -/
def Block.setParents (block : Block) (tips : List BlockID) : Block :=
  { block with Parents := tips }

/-- The assignment `block.Nonce = nonce`. -/
def Block.setNonce (block : Block) (nonce : Nat) : Block :=
  { block with Nonce := nonce }

/-- The collaborators of `DoPoW`.

* `cancelledAt`: the logical instant at which the outer `ctx` is cancelled
  (`none`: never).  Instants are counted as in `entryTime`, `mineReturnTime`,
  `checkTime`.  A context, once done, stays done.
* `Serialize`: `block.Serialize(serializer.DeSeriModeNoValidation, nil)`, a
  deterministic function of the block; when it fails, it fails with an error
  value of the serializer, given by its code.
* `Mine`: `pow.New(parallelism).Mine(powCtx, powData, targetScore)` of the
  given attempt (0-based) on the given data; `targetScore`, `parallelism` and
  the timeout `refreshTipsInterval` only reach the miner and `powCtx`, so they
  are part of this oracle.
* `refreshTipsFunc`: the callback (`none` is Go's `nil`); its argument is the
  attempt in which it is called. -/
structure Env where
  cancelledAt : Option Nat
  Serialize : Block → Except Nat (List Nat)
  Mine : Nat → List Nat → Except GoError Nat
  refreshTipsFunc : Option (Nat → Except GoError (List BlockID))

/-- Instant of the check `ReturnErrIfCtxDone` on entry. -/
def entryTime : Nat := 0

/-- Instant at which `Mine` of attempt `i` returns. -/
def mineReturnTime (i : Nat) : Nat := 2 * i + 1

/-- Instant of the check `ctx.Err() != nil` after attempt `i` failed. -/
def checkTime (i : Nat) : Nat := 2 * i + 2

/-- Whether the outer context is done at instant `t` (`ctx.Err() != nil`). -/
def Env.ctxDone (env : Env) (t : Nat) : Bool :=
  match env.cancelledAt with
  | none => false
  | some c => decide (c ≤ t)

/-- Calls of collaborators, in the order they happen. -/
inductive Event where
  /-- A call `block.Serialize` on the block as it is at that moment. -/
  | serialize (block : Block)
  /-- The call `Mine` of attempt `attempt` with data `powData`, while the block
  is `block`. -/
  | mine (attempt : Nat) (block : Block) (powData : List Nat)
  /-- The call `refreshTipsFunc()` made in attempt `attempt`. -/
  | refreshTips (attempt : Nat)
deriving DecidableEq, Repr

/-- How a Go function call ends: with its results, or with a run-time panic. -/
inductive Completion (α : Type) where
  | ret (a : α)
  | fail (err : GoError)
  | panic
deriving DecidableEq, Repr

/-- The closure `getPoWData`.  The slice expression
`blockData[:len(blockData)-nonceBytes]` panics when the bound is negative. -/
def getPoWData (env : Env) (block : Block) : Completion (List Nat) :=
  match env.Serialize block with
  | .error code => .fail (.wrapped .cantSerialize (.serializer code))
  | .ok blockData =>
    if blockData.length < nonceBytes then .panic
    else .ret (blockData.take (blockData.length - nonceBytes))

/-- The variables the closures of `DoPoW` share: the block behind the pointer
and `powData`. -/
structure PoWState where
  block : Block
  powData : List Nat
deriving DecidableEq, Repr

/-- The closure `doPow`, attempt `i`: the calls made, the variables afterwards,
and the `(uint64, error)` result. -/
def doPow (env : Env) (i : Nat) (st : PoWState) : List Event × PoWState × Completion Nat :=
  match env.Mine i st.powData with
  | .ok nonce => ([.mine i st.block st.powData], st, .ret nonce)
  | .error err =>
    match env.refreshTipsFunc with
    | none => ([.mine i st.block st.powData], st, .fail err)
    | some refresh =>
      if err.Is .ErrCancelled then
        match refresh i with
        | .error e => ([.mine i st.block st.powData, .refreshTips i], st, .fail e)
        | .ok tips =>
          let block : Block := st.block.setParents tips
          match getPoWData env block with
          | .ret powData =>
            ([.mine i st.block st.powData, .refreshTips i, .serialize block],
              { block := block, powData := powData }, .fail .ErrCancelled)
          | .fail e =>
            ([.mine i st.block st.powData, .refreshTips i, .serialize block],
              { block := block, powData := [] }, .fail e)
          | .panic =>
            ([.mine i st.block st.powData, .refreshTips i, .serialize block],
              { block := block, powData := st.powData }, .panic)
      else ([.mine i st.block st.powData], st, .fail err)

/-- How a run of `DoPoW` stands: it returned `(blockSize, err)`, it panicked, or
the loop is still turning after the attempts looked at. -/
inductive Outcome where
  | returned (blockSize : Nat) (err : Option GoError)
  | panicked
  | running
deriving DecidableEq, Repr

/-- A run of `DoPoW`: the calls made, the block behind the pointer at the end,
and the outcome. -/
structure Run where
  trace : List Event
  block : Block
  outcome : Outcome
deriving DecidableEq, Repr

/-- The run `r` after the calls `evs`. -/
def Run.after (evs : List Event) (r : Run) : Run :=
  { r with trace := evs ++ r.trace }

/-- One pass through the body of the `for` loop. -/
inductive Pass where
  /-- The statement `continue`: the next attempt starts with the given variables. -/
  | next (evs : List Event) (st : PoWState)
  /-- The loop is left. -/
  | done (r : Run)

/-- The branch `if err != nil` of the loop body, after attempt `i` made the
calls `evs`, left the variables `st` and failed with `err`. -/
def onError (env : Env) (i : Nat) (evs : List Event) (st : PoWState) (err : GoError) : Pass :=
  if env.ctxDone (checkTime i) then
    .done { trace := evs, block := st.block, outcome := .returned 0 (some .ErrOperationAborted) }
  else if err.Is .ErrCancelled then .next evs st
  else .done { trace := evs, block := st.block, outcome := .returned 0 (some err) }

/-- The body of the `for` loop of `DoPoW`, attempt `i`. -/
def pass (env : Env) (i : Nat) (st : PoWState) : Pass :=
  match doPow env i st with
  | (evs, st1, .ret nonce) =>
    .done { trace := evs, block := st1.block.setNonce nonce,
            outcome := .returned (st1.powData.length + nonceBytes) none }
  | (evs, st1, .panic) => .done { trace := evs, block := st1.block, outcome := .panicked }
  | (evs, st1, .fail err) => onError env i evs st1 err

/-- The `for` loop of `DoPoW` from attempt `i` on, looking at no more than
`fuel` attempts. -/
def loop (env : Env) : Nat → Nat → PoWState → Run
  | 0, _, st => { trace := [], block := st.block, outcome := .running }
  | fuel + 1, i, st =>
    match pass env i st with
    | .done r => r
    | .next evs st1 => (loop env fuel (i + 1) st1).after evs

/-- The function `DoPoW`, looking at no more than `fuel` mining attempts. -/
def DoPoW (env : Env) (block : Block) (fuel : Nat) : Run :=
  if env.ctxDone entryTime then
    { trace := [], block := block, outcome := .returned 0 (some .ErrOperationAborted) }
  else
    match getPoWData env block with
    | .fail e => { trace := [.serialize block], block := block, outcome := .returned 0 (some e) }
    | .panic => { trace := [.serialize block], block := block, outcome := .panicked }
    | .ret powData =>
      (loop env fuel 0 { block := block, powData := powData }).after [.serialize block]

/-- The calls made before attempt `i` starts and the variables with which it
starts, when the run gets that far. -/
def reach (env : Env) (block : Block) : Nat → Option (List Event × PoWState)
  | 0 =>
    if env.ctxDone entryTime then none
    else
      match getPoWData env block with
      | .ret powData => some ([.serialize block], { block := block, powData := powData })
      | _ => none
  | i + 1 =>
    match reach env block i with
    | none => none
    | some (pre, st) =>
      match pass env i st with
      | .next evs st1 => some (pre ++ evs, st1)
      | .done _ => none

/-- The data `DoPoW` mines for a block: its serialized form without the
trailing `nonceBytes` bytes. -/
def IsPoWDataOf (env : Env) (block : Block) (powData : List Nat) : Prop :=
  ∃ blockData, env.Serialize block = .ok blockData ∧ nonceBytes ≤ blockData.length ∧
    powData = blockData.take (blockData.length - nonceBytes)

/-! ## `pkg/spammer/basic.go` -/

abbrev Address := Nat

/-- An `iotago.NativeToken`: token identifier and amount. -/
structure NativeToken where
  ID : Nat
  Amount : Nat
deriving DecidableEq, Repr

/-- The fields of `iotago.BasicOutput` the code reads or writes.  `NativeTokens`
is the native token set of the output, `NativeTokenList().MustSet()`: a ledger
output has pairwise distinct token identifiers, so the set has as many entries
as the list.  `Address` is the address of the address unlock condition,
`UnlockConditionSet().Address().Address`. -/
structure BasicOutput where
  Amount : Nat
  NativeTokens : List NativeToken
  Address : Address
deriving DecidableEq, Repr

/-- An unspent output of the pool: identifier and output.  The pool is the one
of basic outputs, so `Output().(*iotago.BasicOutput)` is the output itself. -/
structure UTXO where
  outputID : Nat
  output : BasicOutput
deriving DecidableEq, Repr

/-- Modelled from the spec: the type `LedgerAccount` and its methods `Address`,
`BasicOutputs` and `SetBasicOutputs`, which are not in the two source files; an
address plus a mutable pool of owned UTXOs (spec 3). -/
structure LedgerAccount where
  Address : Address
  basicOutputs : List UTXO
deriving DecidableEq, Repr

/-- Modelled from the spec: the method `LedgerAccount.BasicOutputs`, not in the
two source files; the pool of the account. -/
def LedgerAccount.BasicOutputs (a : LedgerAccount) : List UTXO := a.basicOutputs

/-- Modelled from the spec: the method `LedgerAccount.SetBasicOutputs`, not in
the two source files; it writes the pool of the account. -/
def LedgerAccount.SetBasicOutputs (a : LedgerAccount) (outputs : List UTXO) : LedgerAccount :=
  { a with basicOutputs := outputs }

/-- The protocol maxima the builder counts against; the constants are not in
the two source files. -/
structure Limits where
  MaxInputsCount : Nat
  MaxOutputsCount : Nat
deriving DecidableEq, Repr

/-- Modelled from the spec: the type `SpamBuilder`, not in the two source files;
consumed inputs and produced outputs, both ordered (spec 3), for the account
and tags it was made for. -/
structure SpamBuilder where
  accountSender : Address
  additionalTag : List String
  consumedInputs : List UTXO
  createdOutputs : List BasicOutput
deriving DecidableEq, Repr

/-- Modelled from the spec: the function `NewSpamBuilder`, not in the two source
files; a builder that holds nothing yet. -/
def NewSpamBuilder (accountSender : LedgerAccount) (additionalTag : List String) : SpamBuilder :=
  { accountSender := accountSender.Address, additionalTag := additionalTag,
    consumedInputs := [], createdOutputs := [] }

/-- Modelled from the spec: the method `SpamBuilder.AddInput`, not in the two
source files; spec 4.4: appends if under the input-count maximum; returns
false (no mutation) otherwise. -/
def SpamBuilder.AddInput (lim : Limits) (b : SpamBuilder) (input : UTXO) : Bool × SpamBuilder :=
  if b.consumedInputs.length < lim.MaxInputsCount then
    (true, { b with consumedInputs := b.consumedInputs ++ [input] })
  else (false, b)

/-- Modelled from the spec: the method `SpamBuilder.AddOutput`, not in the two
source files; spec 4.4: appends if under the output-count maximum; returns
false otherwise. -/
def SpamBuilder.AddOutput (lim : Limits) (b : SpamBuilder) (output : BasicOutput) :
    Bool × SpamBuilder :=
  if b.createdOutputs.length < lim.MaxOutputsCount then
    (true, { b with createdOutputs := b.createdOutputs ++ [output] })
  else (false, b)

/-- Modelled from the spec: the method `SpamBuilder.Clone`, not in the two source
files; spec 4.4: a deep-independent copy.  Builders are values here, so the
copy is the builder. -/
def SpamBuilder.Clone (b : SpamBuilder) : SpamBuilder := b

/-- Modelled from the spec: the method `SpamBuilder.ConsumedInputsEmpty`, not in
the two source files. -/
def SpamBuilder.ConsumedInputsEmpty (b : SpamBuilder) : Bool := b.consumedInputs.isEmpty

/-- Modelled from the spec: the function `consumeInputs`, not in the two source
files; spec 4.3: candidates are looked at in input order, the predicate is
called once for each, and when it signals abort the scan stops with the
current candidate and all later ones in `remaining`.  The predicate is a Go
closure over the variable `spamBuilder`; its value is threaded through as
`s`.  The result is `((consumed, remaining), s)`. -/
def consumeInputs {σ : Type} (onConsumeInput : σ → UTXO → (Bool × Bool) × σ) :
    List UTXO → σ → (List UTXO × List UTXO) × σ
  | [], s => (([], []), s)
  | input :: rest, s =>
    match onConsumeInput s input with
    | ((_, true), s1) => (([], input :: rest), s1)
    | ((true, false), s1) =>
      let r := consumeInputs onConsumeInput rest s1
      ((input :: r.1.1, r.1.2), r.2)
    | ((false, false), s1) =>
      let r := consumeInputs onConsumeInput rest s1
      ((r.1.1, input :: r.1.2), r.2)

/-- Calls made by the two send functions, in the order they happen. -/
inductive Call where
  | NewSpamBuilder
  | consumeInputs (inputs : List UTXO)
  /-- The submission step, with the builder passed and what it returned. -/
  | BuildTransactionPayloadBlockAndSend (b : SpamBuilder)
      (res : Except GoError (List UTXO × Option UTXO))
  | SetBasicOutputs (outputs : List UTXO)
  | bookCreatedOutputs (createdOutputs : List UTXO)
deriving DecidableEq, Repr

/-- A `*LedgerAccount`: the two send functions get their accounts as pointers,
which may be one and the same. -/
abbrev AccountRef := Nat

/-- The accounts behind the pointers. -/
abbrev Accounts := AccountRef → LedgerAccount

/-- A write through the pointer `p`. -/
def Accounts.write (accounts : Accounts) (p : AccountRef) (a : LedgerAccount) : Accounts :=
  fun q => if q = p then a else accounts q

/-- The collaborators of the two send functions.

* `limits`: the protocol maxima.
* `BuildTransactionPayloadBlockAndSend`: the submission step
  `s.BuildTransactionPayloadBlockAndSend(ctx, spamBuilder)`, a method of
  `*Spammer` whose body is not in the two source files.  It returns the created
  outputs and the remainder (`none` is Go's `nil`) or an error, and it may
  write the accounts: it gets the accounts as they are and returns them as it
  leaves them.
* `bookCreatedOutputs`: the method
  `s.bookCreatedOutputs(createdOutputs, accountReceiver, nil, nil)`, not in the
  two source files; it books into the account it is passed and returns that
  account after booking, or an error. -/
structure SpamEnv where
  limits : Limits
  BuildTransactionPayloadBlockAndSend :
    SpamBuilder → Accounts → Except GoError (List UTXO × Option UTXO) × Accounts
  bookCreatedOutputs : List UTXO → LedgerAccount → Except GoError LedgerAccount

/-- A call of a send function: the calls made, the accounts afterwards, and the
result (`ret ()` is the `nil` error, `panic` the `panic(err)` after a failed
booking). -/
structure SendRun where
  calls : List Call
  accounts : Accounts
  result : Completion Unit

/-- The closure passed to `consumeInputs` in `basicOutputSend`. -/
def basicOutputSendPredicate (lim : Limits) (spamBuilder : SpamBuilder) (basicInput : UTXO) :
    (Bool × Bool) × SpamBuilder :=
  let basicOutput := basicInput.output
  let nativeTokens := basicOutput.NativeTokens
  if nativeTokens.length ≠ 0 then ((false, false), spamBuilder)
  else
    match spamBuilder.AddInput lim basicInput with
    | (false, spamBuilder) => ((false, true), spamBuilder)
    | (true, spamBuilder) => ((true, false), spamBuilder)

/-- The scan of `basicOutputSend`: `NewSpamBuilder` and `consumeInputs` with the
closure; `((consumed, remaining), spamBuilder)`. -/
def basicOutputScan (lim : Limits) (accountSender : LedgerAccount) (additionalTag : List String) :
    (List UTXO × List UTXO) × SpamBuilder :=
  consumeInputs (basicOutputSendPredicate lim) accountSender.BasicOutputs
    (NewSpamBuilder accountSender additionalTag)

/-- The statement `if utxoRemainder != nil` with its `append`. -/
def appendRemainder (remainingBasicInputs : List UTXO) (utxoRemainder : Option UTXO) :
    List UTXO :=
  match utxoRemainder with
  | some remainder => remainingBasicInputs ++ [remainder]
  | none => remainingBasicInputs

/-- The part the two send functions share, from the submission on: `pre` are
the calls made so far. -/
def submitAndBook (env : SpamEnv) (pre : List Call) (accounts : Accounts)
    (accountSender accountReceiver : AccountRef) (spamBuilder : SpamBuilder)
    (remainingBasicInputs : List UTXO) : SendRun :=
  match env.BuildTransactionPayloadBlockAndSend spamBuilder accounts with
  | (.error err, accounts1) =>
    { calls := pre ++ [.BuildTransactionPayloadBlockAndSend spamBuilder (.error err)],
      accounts := accounts1, result := .fail err }
  | (.ok (createdOutputs, utxoRemainder), accounts1) =>
    let remainingBasicInputs := appendRemainder remainingBasicInputs utxoRemainder
    let calls := pre ++ [.BuildTransactionPayloadBlockAndSend spamBuilder
        (.ok (createdOutputs, utxoRemainder)), .SetBasicOutputs remainingBasicInputs,
      .bookCreatedOutputs createdOutputs]
    let accounts2 := Accounts.write accounts1 accountSender
      ((accounts1 accountSender).SetBasicOutputs remainingBasicInputs)
    match env.bookCreatedOutputs createdOutputs (accounts2 accountReceiver) with
    | .error _ => { calls := calls, accounts := accounts2, result := .panic }
    | .ok booked =>
      { calls := calls, accounts := Accounts.write accounts2 accountReceiver booked,
        result := .ret () }

/-- The method `Spammer.basicOutputSend`. -/
def basicOutputSend (env : SpamEnv) (accounts : Accounts)
    (accountSender accountReceiver : AccountRef) (additionalTag : List String) : SendRun :=
  if (accounts accountSender).BasicOutputs.length < 1 then
    { calls := [], accounts := accounts,
      result := .fail (.wrapped .basicOutputs .ErrNoUTXOAvailable) }
  else
    let scan := basicOutputScan env.limits (accounts accountSender) additionalTag
    let remainingBasicInputs := scan.1.2
    let spamBuilder := scan.2
    let pre : List Call := [.NewSpamBuilder, .consumeInputs (accounts accountSender).BasicOutputs]
    if spamBuilder.ConsumedInputsEmpty then
      { calls := pre, accounts := accounts,
        result := .fail (.wrapped .filteredBasicOutputs .ErrNoUTXOAvailable) }
    else
      let targetBasicOuput : BasicOutput :=
        { Amount := 0, NativeTokens := [], Address := (accounts accountReceiver).Address }
      match spamBuilder.AddOutput env.limits targetBasicOuput with
      | (false, _) =>
        { calls := pre, accounts := accounts,
          result := .fail (.wrapped .basicOutput .ErrMaxOutputsCountExceeded) }
      | (true, spamBuilder) =>
        submitAndBook env pre accounts accountSender accountReceiver spamBuilder
          remainingBasicInputs

/-- The closure passed to `consumeInputs` in `basicOutputSendNativeTokens`. -/
def basicOutputSendNativeTokensPredicate (lim : Limits) (accountReceiver : LedgerAccount)
    (spamBuilder : SpamBuilder) (basicInput : UTXO) : (Bool × Bool) × SpamBuilder :=
  let basicOutput := basicInput.output
  let nativeTokens := basicOutput.NativeTokens
  if nativeTokens.length = 0 then ((false, false), spamBuilder)
  else
    let createdBasicOutput : BasicOutput := { basicOutput with Address := accountReceiver.Address }
    let tmpSpamBuilder := spamBuilder.Clone
    match tmpSpamBuilder.AddInput lim basicInput with
    | (false, _) => ((false, true), spamBuilder)
    | (true, tmpSpamBuilder) =>
      match tmpSpamBuilder.AddOutput lim createdBasicOutput with
      | (false, _) => ((false, true), spamBuilder)
      | (true, tmpSpamBuilder) => ((true, false), tmpSpamBuilder)

/-- The scan of `basicOutputSendNativeTokens`. -/
def nativeTokensScan (lim : Limits) (accountSender accountReceiver : LedgerAccount)
    (additionalTag : List String) : (List UTXO × List UTXO) × SpamBuilder :=
  consumeInputs (basicOutputSendNativeTokensPredicate lim accountReceiver)
    accountSender.BasicOutputs (NewSpamBuilder accountSender additionalTag)

/-- The method `Spammer.basicOutputSendNativeTokens`. -/
def basicOutputSendNativeTokens (env : SpamEnv) (accounts : Accounts)
    (accountSender accountReceiver : AccountRef) (additionalTag : List String) : SendRun :=
  if (accounts accountSender).BasicOutputs.length < 1 then
    { calls := [], accounts := accounts,
      result := .fail (.wrapped .basicOutputs .ErrNoUTXOAvailable) }
  else
    let scan := nativeTokensScan env.limits (accounts accountSender) (accounts accountReceiver)
      additionalTag
    let remainingBasicInputs := scan.1.2
    let spamBuilder := scan.2
    let pre : List Call := [.NewSpamBuilder, .consumeInputs (accounts accountSender).BasicOutputs]
    if spamBuilder.ConsumedInputsEmpty then
      { calls := pre, accounts := accounts,
        result := .fail (.wrapped .filteredBasicOutputs .ErrNoUTXOAvailable) }
    else
      submitAndBook env pre accounts accountSender accountReceiver spamBuilder
        remainingBasicInputs

/-- Whether an output of the pool carries native tokens. -/
def UTXO.hasNativeTokens (u : UTXO) : Bool := decide (u.output.NativeTokens.length ≠ 0)

/-- The output the native-token send creates for an input: a clone with the
address rewritten to the receiver. -/
def UTXO.sentTo (u : UTXO) (accountReceiver : LedgerAccount) : BasicOutput :=
  { u.output with Address := accountReceiver.Address }

/-! ### Sample environments -/

/-- A serializer for the samples: the parents, then eight nonce bytes. -/
def sampleSerialize (b : Block) : Except Nat (List Nat) :=
  .ok (b.Parents ++ [b.Nonce, 0, 0, 0, 0, 0, 0, 0])

/-- A block with the single parent `1`. -/
def block1 : Block := { ProtocolVersion := 2, Parents := [1], Payload := [], Nonce := 0 }

/-- The outer context is cancelled while the first mining attempt runs, and the
refresher answers with the tips `[7]`. -/
def envCancelledWhileMining : Env where
  cancelledAt := some 1
  Serialize := sampleSerialize
  Mine := fun _ _ => .error .ErrCancelled
  refreshTipsFunc := some (fun _ => .ok [7])

/-- The first mining attempt runs into the refresh timeout, the refresher fails
with `other 5`, and the outer context is cancelled while the refresher runs. -/
def envRefreshFailsCancelled : Env where
  cancelledAt := some 2
  Serialize := sampleSerialize
  Mine := fun _ _ => .error .ErrCancelled
  refreshTipsFunc := some (fun _ => .error (.other 5))

/-- The first mining attempt runs into the refresh timeout and the refresher
fails with `other 5`; the outer context is never cancelled. -/
def envRefreshFails : Env where
  cancelledAt := none
  Serialize := sampleSerialize
  Mine := fun _ _ => .error .ErrCancelled
  refreshTipsFunc := some (fun _ => .error (.other 5))

/-- The first mining attempt runs into the refresh timeout, the refresher
answers with the tips `[7]`, and the second attempt finds the nonce `42`. -/
def envRefreshOnce : Env where
  cancelledAt := none
  Serialize := sampleSerialize
  Mine := fun i _ => if i = 0 then .error .ErrCancelled else .ok 42
  refreshTipsFunc := some (fun _ => .ok [7])

/-- The outer context is done before `DoPoW` is called. -/
def envDoneOnEntry : Env where
  cancelledAt := some 0
  Serialize := sampleSerialize
  Mine := fun _ _ => .ok 42
  refreshTipsFunc := some (fun _ => .ok [7])

/-! ### Sample accounts -/

/-- A token-free output of 100. -/
def tokenFreeA : UTXO :=
  { outputID := 1, output := { Amount := 100, NativeTokens := [], Address := 10 } }

/-- A token-free output of 200. -/
def tokenFreeB : UTXO :=
  { outputID := 2, output := { Amount := 200, NativeTokens := [], Address := 10 } }

/-- An output that carries 5 of the native token 77. -/
def tokenBearing : UTXO :=
  { outputID := 3,
    output := { Amount := 50, NativeTokens := [{ ID := 77, Amount := 5 }], Address := 10 } }

/-- A remainder output. -/
def remainderUTXO : UTXO :=
  { outputID := 9, output := { Amount := 40, NativeTokens := [], Address := 10 } }

/-- An account with two token-free outputs and a token-bearing one between them. -/
def sampleSender : LedgerAccount :=
  { Address := 10, basicOutputs := [tokenFreeA, tokenBearing, tokenFreeB] }

/-- An account without outputs. -/
def emptySender : LedgerAccount := { Address := 10, basicOutputs := [] }

/-- The receiving account. -/
def sampleReceiver : LedgerAccount := { Address := 20, basicOutputs := [] }

/-- The maxima of the protocol, `iotago.MaxInputsCount` and
`iotago.MaxOutputsCount`. -/
def protocolLimits : Limits := { MaxInputsCount := 128, MaxOutputsCount := 128 }

/-- The sender behind pointer 0, the receiver behind every other pointer. -/
def sampleAccounts : Accounts := fun p => if p = 0 then sampleSender else sampleReceiver

/-- As `sampleAccounts`, with the account without outputs as sender. -/
def emptyAccounts : Accounts := fun p => if p = 0 then emptySender else sampleReceiver

/-- A submission step that succeeds with one created output and the remainder
`remainderUTXO` and leaves the accounts alone, and a booking that appends the
created outputs. -/
def sampleSpamEnv : SpamEnv where
  limits := protocolLimits
  BuildTransactionPayloadBlockAndSend := fun b accounts =>
    (.ok (b.createdOutputs.map (fun o => { outputID := 8, output := o }), some remainderUTXO),
      accounts)
  bookCreatedOutputs := fun created a => .ok (a.SetBasicOutputs (a.BasicOutputs ++ created))

/-- A submission step that fails with `other 3` and leaves the accounts alone. -/
def failingSpamEnv : SpamEnv where
  limits := protocolLimits
  BuildTransactionPayloadBlockAndSend := fun _ accounts => (.error (.other 3), accounts)
  bookCreatedOutputs := fun created a => .ok (a.SetBasicOutputs (a.BasicOutputs ++ created))

/-- A submission step that fails with `other 3` and, before it returns, resets
the accounts: every pool is emptied. -/
def resettingSpamEnv : SpamEnv where
  limits := protocolLimits
  BuildTransactionPayloadBlockAndSend := fun _ accounts =>
    (.error (.other 3), fun p => (accounts p).SetBasicOutputs [])
  bookCreatedOutputs := fun created a => .ok (a.SetBasicOutputs (a.BasicOutputs ++ created))

/-! # Theorems -/

/-! ## The loop of `DoPoW` -/

@[simp] theorem Run.after_trace (evs : List Event) (r : Run) :
    (r.after evs).trace = evs ++ r.trace := rfl

@[simp] theorem Run.after_block (evs : List Event) (r : Run) :
    (r.after evs).block = r.block := rfl

@[simp] theorem Run.after_outcome (evs : List Event) (r : Run) :
    (r.after evs).outcome = r.outcome := rfl

theorem Run.after_after (evs1 evs2 : List Event) (r : Run) :
    (r.after evs2).after evs1 = r.after (evs1 ++ evs2) := by
  simp [Run.after]

@[simp] theorem Block.setParents_Parents (b : Block) (tips : List BlockID) :
    (b.setParents tips).Parents = tips := rfl

@[simp] theorem Block.setParents_Nonce (b : Block) (tips : List BlockID) :
    (b.setParents tips).Nonce = b.Nonce := rfl

@[simp] theorem Block.setNonce_Parents (b : Block) (n : Nat) :
    (b.setNonce n).Parents = b.Parents := rfl

@[simp] theorem Block.setNonce_Nonce (b : Block) (n : Nat) :
    (b.setNonce n).Nonce = n := rfl

theorem loop_succ_next {env : Env} {i : Nat} {st st1 : PoWState} {evs : List Event}
    (h : pass env i st = .next evs st1) (fuel : Nat) :
    loop env (fuel + 1) i st = (loop env fuel (i + 1) st1).after evs := by
  simp [loop, h]

theorem loop_succ_done {env : Env} {i : Nat} {st : PoWState} {r : Run}
    (h : pass env i st = .done r) (fuel : Nat) :
    loop env (fuel + 1) i st = r := by
  simp [loop, h]

/-- A run that reaches attempt `i` is the calls made so far followed by the
loop from attempt `i` on. -/
theorem DoPoW_of_reach {env : Env} {block : Block} :
    ∀ {i : Nat} {pre : List Event} {st : PoWState}, reach env block i = some (pre, st) →
      ∀ fuel, DoPoW env block (i + fuel) = (loop env fuel i st).after pre := by
  intro i
  induction i with
  | zero =>
    intro pre st h fuel
    unfold reach at h
    unfold DoPoW
    split at h
    · exact absurd h (by simp)
    · rename_i hctx
      rw [if_neg hctx]
      split at h
      · rename_i powData hpow
        simp only [Option.some.injEq, Prod.mk.injEq] at h
        obtain ⟨rfl, rfl⟩ := h
        simp [hpow]
      · exact absurd h (by simp)
  | succ i ih =>
    intro pre st h fuel
    unfold reach at h
    split at h
    · exact absurd h (by simp)
    · rename_i pre0 st0 hreach
      split at h
      · rename_i evs st1 hpass
        simp only [Option.some.injEq, Prod.mk.injEq] at h
        obtain ⟨rfl, rfl⟩ := h
        have := ih hreach (fuel + 1)
        rw [show i + 1 + fuel = i + (fuel + 1) by omega, this, loop_succ_next hpass,
          Run.after_after]
      · exact absurd h (by simp)

theorem getPoWData_ret {env : Env} {block : Block} {powData : List Nat}
    (h : getPoWData env block = .ret powData) : IsPoWDataOf env block powData := by
  unfold getPoWData at h
  split at h
  · exact absurd h (by simp)
  · rename_i blockData hser
    split at h
    · exact absurd h (by simp)
    · rename_i hlen
      simp only [Completion.ret.injEq] at h
      exact ⟨blockData, hser, by omega, h.symm⟩

theorem getPoWData_fail_not_cancelled {env : Env} {block : Block} {e : GoError}
    (h : getPoWData env block = .fail e) : e.Is .ErrCancelled = false := by
  unfold getPoWData at h
  split at h
  · simp only [Completion.fail.injEq] at h
    subst h
    simp [GoError.Is]
  · split at h <;> exact absurd h (by simp)

/-- The pass of attempt `i` when the miner finds a nonce. -/
theorem pass_of_nonce {env : Env} {i : Nat} {st : PoWState} {nonce : Nat}
    (hm : env.Mine i st.powData = .ok nonce) :
    pass env i st = .done {
      trace := [.mine i st.block st.powData]
      block := st.block.setNonce nonce
      outcome := .returned (st.powData.length + nonceBytes) none } := by
  simp [pass, doPow, hm]

/-- The pass of attempt `i` when the miner fails and the tips are not refreshed. -/
theorem pass_of_error {env : Env} {i : Nat} {st : PoWState} {err : GoError}
    (hm : env.Mine i st.powData = .error err)
    (hr : env.refreshTipsFunc = none ∨ err.Is .ErrCancelled = false) :
    pass env i st = onError env i [.mine i st.block st.powData] st err := by
  cases hf : env.refreshTipsFunc with
  | none => simp [pass, doPow, hm, hf]
  | some f =>
    rcases hr with hr | hr
    · simp [hf] at hr
    · simp [pass, doPow, hm, hf, hr]

/-- The pass of attempt `i` when the miner is cancelled and the refresher fails. -/
theorem pass_of_refresh_error {env : Env} {i : Nat} {st : PoWState} {err e : GoError}
    {f : Nat → Except GoError (List BlockID)}
    (hm : env.Mine i st.powData = .error err) (hc : err.Is .ErrCancelled = true)
    (hr : env.refreshTipsFunc = some f) (hf : f i = .error e) :
    pass env i st = onError env i [.mine i st.block st.powData, .refreshTips i] st e := by
  simp [pass, doPow, hm, hr, hc, hf]

/-- The pass of attempt `i` when the miner is cancelled and the refresher
answers with tips. -/
theorem pass_of_refresh_ok {env : Env} {i : Nat} {st : PoWState} {err : GoError}
    {f : Nat → Except GoError (List BlockID)} {tips : List BlockID}
    (hm : env.Mine i st.powData = .error err) (hc : err.Is .ErrCancelled = true)
    (hr : env.refreshTipsFunc = some f) (hf : f i = .ok tips) :
    pass env i st =
      match getPoWData env (st.block.setParents tips) with
      | .ret powData =>
        onError env i [.mine i st.block st.powData, .refreshTips i,
            .serialize (st.block.setParents tips)]
          { block := st.block.setParents tips, powData := powData } .ErrCancelled
      | .fail e =>
        onError env i [.mine i st.block st.powData, .refreshTips i,
            .serialize (st.block.setParents tips)]
          { block := st.block.setParents tips, powData := [] } e
      | .panic =>
        .done {
          trace := [.mine i st.block st.powData, .refreshTips i,
            .serialize (st.block.setParents tips)]
          block := st.block.setParents tips
          outcome := .panicked } := by
  simp only [pass, doPow, hm, hr, hc, hf, if_true]
  cases getPoWData env (st.block.setParents tips) <;> rfl

/-- The four ways a pass can go. -/
theorem pass_cases (env : Env) (i : Nat) (st : PoWState) :
    (∃ nonce, env.Mine i st.powData = .ok nonce) ∨
    (∃ err, env.Mine i st.powData = .error err ∧
      (env.refreshTipsFunc = none ∨ err.Is .ErrCancelled = false)) ∨
    (∃ err f e, env.Mine i st.powData = .error err ∧ err.Is .ErrCancelled = true ∧
      env.refreshTipsFunc = some f ∧ f i = .error e) ∨
    (∃ err f tips, env.Mine i st.powData = .error err ∧ err.Is .ErrCancelled = true ∧
      env.refreshTipsFunc = some f ∧ f i = .ok tips) := by
  cases hm : env.Mine i st.powData with
  | ok n => exact Or.inl ⟨n, rfl⟩
  | error err =>
    cases hr : env.refreshTipsFunc with
    | none => exact Or.inr (Or.inl ⟨err, rfl, Or.inl rfl⟩)
    | some f =>
      cases hc : err.Is .ErrCancelled with
      | false => exact Or.inr (Or.inl ⟨err, rfl, Or.inr hc⟩)
      | true =>
        cases hf : f i with
        | error e => exact Or.inr (Or.inr (Or.inl ⟨err, f, e, rfl, hc, rfl, hf⟩))
        | ok tips => exact Or.inr (Or.inr (Or.inr ⟨err, f, tips, rfl, hc, rfl, hf⟩))

theorem onError_next {env : Env} {i : Nat} {evs evs1 : List Event} {st st1 : PoWState}
    {err : GoError} (h : onError env i evs st err = .next evs1 st1) :
    env.ctxDone (checkTime i) = false ∧ err.Is .ErrCancelled = true ∧ evs1 = evs ∧ st1 = st := by
  unfold onError at h
  split_ifs at h with h1 h2
  simp only [Pass.next.injEq] at h
  simp [h1, h2, h.1, h.2]

theorem onError_done {env : Env} {i : Nat} {evs : List Event} {st : PoWState}
    {err : GoError} {r : Run} (h : onError env i evs st err = .done r) :
    r.trace = evs ∧ r.block = st.block ∧ ∃ e, r.outcome = .returned 0 (some e) := by
  unfold onError at h
  split_ifs at h with h1 h2 <;> simp only [Pass.done.injEq] at h <;> subst h <;> simp

/-- What a pass that ends in `continue` did. -/
theorem pass_next {env : Env} {i : Nat} {st st1 : PoWState} {evs : List Event}
    (h : pass env i st = .next evs st1) :
    env.ctxDone (checkTime i) = false ∧
    ((st1 = st ∧ evs = [.mine i st.block st.powData] ∧ env.refreshTipsFunc = none) ∨
     (st1 = st ∧ evs = [.mine i st.block st.powData, .refreshTips i] ∧
        ∃ f e, env.refreshTipsFunc = some f ∧ f i = .error e) ∨
     (∃ f tips powData, env.refreshTipsFunc = some f ∧ f i = .ok tips ∧
        getPoWData env (st.block.setParents tips) = .ret powData ∧
        st1 = { block := st.block.setParents tips, powData := powData } ∧
        evs = [.mine i st.block st.powData, .refreshTips i,
               .serialize (st.block.setParents tips)])) := by
  rcases pass_cases env i st with ⟨n, hm⟩ | ⟨err, hm, hr⟩ | ⟨err, f, e, hm, hc, hr, hf⟩ |
    ⟨err, f, tips, hm, hc, hr, hf⟩
  · rw [pass_of_nonce hm] at h
    exact absurd h (by simp)
  · rw [pass_of_error hm hr] at h
    obtain ⟨h1, h2, rfl, rfl⟩ := onError_next h
    rcases hr with hr | hr
    · exact ⟨h1, Or.inl ⟨rfl, rfl, hr⟩⟩
    · rw [hr] at h2
      exact absurd h2 (by simp)
  · rw [pass_of_refresh_error hm hc hr hf] at h
    obtain ⟨h1, _, rfl, rfl⟩ := onError_next h
    exact ⟨h1, Or.inr (Or.inl ⟨rfl, rfl, f, e, hr, hf⟩)⟩
  · rw [pass_of_refresh_ok hm hc hr hf] at h
    cases hg : getPoWData env (st.block.setParents tips) with
    | ret powData =>
      simp only [hg] at h
      obtain ⟨h1, _, rfl, rfl⟩ := onError_next h
      exact ⟨h1, Or.inr (Or.inr ⟨f, tips, powData, hr, hf, hg, rfl, rfl⟩)⟩
    | fail e =>
      simp only [hg] at h
      obtain ⟨_, h2, _, _⟩ := onError_next h
      rw [getPoWData_fail_not_cancelled hg] at h2
      exact absurd h2 (by simp)
    | panic =>
      simp only [hg] at h
      exact absurd h (by simp)

/-- The calls of a pass that leaves the loop. -/
theorem pass_done_trace {env : Env} {i : Nat} {st : PoWState} {r : Run}
    (h : pass env i st = .done r) :
    ∃ rest, r.trace = .mine i st.block st.powData :: rest ∧
      ∀ ev ∈ rest, ev = .refreshTips i ∨ ∃ b, ev = .serialize b := by
  rcases pass_cases env i st with ⟨n, hm⟩ | ⟨err, hm, hr⟩ | ⟨err, f, e, hm, hc, hr, hf⟩ |
    ⟨err, f, tips, hm, hc, hr, hf⟩
  · rw [pass_of_nonce hm] at h
    simp only [Pass.done.injEq] at h
    subst h
    exact ⟨[], rfl, by simp⟩
  · rw [pass_of_error hm hr] at h
    exact ⟨[], (onError_done h).1, by simp⟩
  · rw [pass_of_refresh_error hm hc hr hf] at h
    exact ⟨[.refreshTips i], (onError_done h).1, by simp⟩
  · rw [pass_of_refresh_ok hm hc hr hf] at h
    refine ⟨[.refreshTips i, .serialize (st.block.setParents tips)], ?_, by simp⟩
    cases hg : getPoWData env (st.block.setParents tips) with
    | ret powData =>
      simp only [hg] at h
      exact (onError_done h).1
    | fail e =>
      simp only [hg] at h
      exact (onError_done h).1
    | panic =>
      simp only [hg, Pass.done.injEq] at h
      subst h
      rfl

/-- A pass that returns without error is one whose miner found a nonce. -/
theorem pass_done_success {env : Env} {i : Nat} {st : PoWState} {r : Run} {size : Nat}
    (h : pass env i st = .done r) (ho : r.outcome = .returned size none) :
    ∃ nonce, env.Mine i st.powData = .ok nonce ∧
      r.trace = [.mine i st.block st.powData] ∧ r.block = st.block.setNonce nonce ∧
      size = st.powData.length + nonceBytes := by
  rcases pass_cases env i st with ⟨n, hm⟩ | ⟨err, hm, hr⟩ | ⟨err, f, e, hm, hc, hr, hf⟩ |
    ⟨err, f, tips, hm, hc, hr, hf⟩
  · rw [pass_of_nonce hm] at h
    simp only [Pass.done.injEq] at h
    subst h
    simp only [Outcome.returned.injEq, and_true] at ho
    exact ⟨n, hm, rfl, rfl, ho.symm⟩
  · rw [pass_of_error hm hr] at h
    obtain ⟨_, _, e, he⟩ := onError_done h
    rw [he] at ho
    exact absurd ho (by simp)
  · rw [pass_of_refresh_error hm hc hr hf] at h
    obtain ⟨_, _, e, he⟩ := onError_done h
    rw [he] at ho
    exact absurd ho (by simp)
  · rw [pass_of_refresh_ok hm hc hr hf] at h
    cases hg : getPoWData env (st.block.setParents tips) with
    | ret powData =>
      simp only [hg] at h
      obtain ⟨_, _, e, he⟩ := onError_done h
      rw [he] at ho
      exact absurd ho (by simp)
    | fail e =>
      simp only [hg] at h
      obtain ⟨_, _, e, he⟩ := onError_done h
      rw [he] at ho
      exact absurd ho (by simp)
    | panic =>
      simp only [hg, Pass.done.injEq] at h
      subst h
      exact absurd ho (by simp)

/-- The events of a pass that ends in `continue`: the mining call first, then
calls that are not mining calls. -/
theorem pass_next_trace {env : Env} {i : Nat} {st st1 : PoWState} {evs : List Event}
    (h : pass env i st = .next evs st1) :
    ∃ rest, evs = .mine i st.block st.powData :: rest ∧
      ∀ ev ∈ rest, ev = .refreshTips i ∨ ∃ b, ev = .serialize b := by
  obtain ⟨_, ⟨_, rfl, _⟩ | ⟨_, rfl, _⟩ | ⟨f, tips, powData, _, _, _, _, rfl⟩⟩ := pass_next h
  · exact ⟨[], rfl, by simp⟩
  · exact ⟨[.refreshTips i], rfl, by simp⟩
  · exact ⟨[.refreshTips i, .serialize (st.block.setParents tips)], rfl, by simp⟩

/-- The data mined stays the data of the block across `continue`. -/
theorem pass_next_fresh {env : Env} {i : Nat} {st st1 : PoWState} {evs : List Event}
    (h : pass env i st = .next evs st1) (hst : IsPoWDataOf env st.block st.powData) :
    IsPoWDataOf env st1.block st1.powData := by
  obtain ⟨_, ⟨rfl, _, _⟩ | ⟨rfl, _, _⟩ | ⟨f, tips, powData, _, _, hg, rfl, _⟩⟩ := pass_next h
  · exact hst
  · exact hst
  · exact getPoWData_ret hg

theorem mem_mine_cons_rest {i j : Nat} {b0 b : Block} {p0 p : List Nat} {rest : List Event}
    (hrest : ∀ ev ∈ rest, ev = .refreshTips i ∨ ∃ b, ev = .serialize b)
    (h : Event.mine j b p ∈ Event.mine i b0 p0 :: rest) : j = i ∧ b = b0 ∧ p = p0 := by
  rcases List.mem_cons.1 h with h | h
  · simpa using h
  · rcases hrest _ h with h1 | ⟨b1, h1⟩ <;> exact absurd h1 (by simp)

/-- Mining calls of the loop from attempt `i` on have index at least `i`; the
one with index `i` is on the variables the loop starts with. -/
theorem loop_mine_index {env : Env} :
    ∀ (fuel i : Nat) (st : PoWState) {j : Nat} {b : Block} {p : List Nat},
      Event.mine j b p ∈ (loop env fuel i st).trace →
        i ≤ j ∧ (j = i → b = st.block ∧ p = st.powData) := by
  intro fuel
  induction fuel with
  | zero => intro i st j b p h; simp [loop] at h
  | succ fuel ih =>
    intro i st j b p h
    cases hp : pass env i st with
    | done r =>
      rw [loop_succ_done hp] at h
      obtain ⟨rest, hr, hrest⟩ := pass_done_trace hp
      rw [hr] at h
      obtain ⟨rfl, rfl, rfl⟩ := mem_mine_cons_rest hrest h
      exact ⟨le_refl _, fun _ => ⟨rfl, rfl⟩⟩
    | next evs st1 =>
      rw [loop_succ_next hp, Run.after_trace] at h
      obtain ⟨rest, hr, hrest⟩ := pass_next_trace hp
      rcases List.mem_append.1 h with h | h
      · rw [hr] at h
        obtain ⟨rfl, rfl, rfl⟩ := mem_mine_cons_rest hrest h
        exact ⟨le_refl _, fun _ => ⟨rfl, rfl⟩⟩
      · have := (ih (i + 1) st1 h).1
        exact ⟨by omega, fun hj => by omega⟩

/-- Every mining call of the loop is on the data of the block as it is then. -/
theorem loop_mine_fresh {env : Env} :
    ∀ (fuel i : Nat) (st : PoWState), IsPoWDataOf env st.block st.powData →
      ∀ {j : Nat} {b : Block} {p : List Nat},
        Event.mine j b p ∈ (loop env fuel i st).trace → IsPoWDataOf env b p := by
  intro fuel
  induction fuel with
  | zero => intro i st _ j b p h; simp [loop] at h
  | succ fuel ih =>
    intro i st hst j b p h
    cases hp : pass env i st with
    | done r =>
      rw [loop_succ_done hp] at h
      obtain ⟨rest, hr, hrest⟩ := pass_done_trace hp
      rw [hr] at h
      obtain ⟨rfl, rfl, rfl⟩ := mem_mine_cons_rest hrest h
      exact hst
    | next evs st1 =>
      rw [loop_succ_next hp, Run.after_trace] at h
      obtain ⟨rest, hr, hrest⟩ := pass_next_trace hp
      rcases List.mem_append.1 h with h | h
      · rw [hr] at h
        obtain ⟨rfl, rfl, rfl⟩ := mem_mine_cons_rest hrest h
        exact hst
      · exact ih (i + 1) st1 (pass_next_fresh hp hst) h

/-- The attempt after a refresh that returned tips mines the block with these
tips as parents. -/
theorem loop_mine_after_refresh {env : Env} {f : Nat → Except GoError (List BlockID)}
    (hf : env.refreshTipsFunc = some f) :
    ∀ (fuel i : Nat) (st : PoWState) {j : Nat} {tips : List BlockID} {b : Block} {p : List Nat},
      i ≤ j → f j = .ok tips → Event.mine (j + 1) b p ∈ (loop env fuel i st).trace →
        b.Parents = tips := by
  intro fuel
  induction fuel with
  | zero => intro i st j tips b p _ _ h; simp [loop] at h
  | succ fuel ih =>
    intro i st j tips b p hij hj h
    cases hp : pass env i st with
    | done r =>
      rw [loop_succ_done hp] at h
      obtain ⟨rest, hr, hrest⟩ := pass_done_trace hp
      rw [hr] at h
      obtain ⟨h1, _, _⟩ := mem_mine_cons_rest hrest h
      omega
    | next evs st1 =>
      rw [loop_succ_next hp, Run.after_trace] at h
      obtain ⟨rest, hr, hrest⟩ := pass_next_trace hp
      rcases List.mem_append.1 h with h | h
      · rw [hr] at h
        obtain ⟨h1, _, _⟩ := mem_mine_cons_rest hrest h
        omega
      · rcases Nat.eq_or_lt_of_le hij with rfl | hlt
        · obtain ⟨hb, _⟩ := (loop_mine_index fuel (i + 1) st1 h).2 rfl
          obtain ⟨_, ⟨_, _, hn⟩ | ⟨_, _, f1, e, hf1, he⟩ | ⟨f1, tips1, powData, hf1, ht, _, rfl, _⟩⟩ :=
            pass_next hp
          · rw [hn] at hf
            exact absurd hf (by simp)
          · rw [hf] at hf1
            cases hf1
            rw [hj] at he
            exact absurd he (by simp)
          · rw [hf] at hf1
            cases hf1
            rw [hj] at ht
            cases ht
            rw [hb]
            rfl
        · exact ih (i + 1) st1 (by omega) hj h

/-- A loop that returns without error ends with the mining call that found the
nonce written to the block. -/
theorem loop_success {env : Env} :
    ∀ (fuel i : Nat) (st : PoWState) {size : Nat}, IsPoWDataOf env st.block st.powData →
      (loop env fuel i st).outcome = .returned size none →
      ∃ (pre : List Event) (j : Nat) (b : Block) (p : List Nat) (nonce : Nat),
        (loop env fuel i st).trace = pre ++ [.mine j b p] ∧ env.Mine j p = .ok nonce ∧
        (loop env fuel i st).block = b.setNonce nonce ∧ IsPoWDataOf env b p ∧
        size = p.length + nonceBytes := by
  intro fuel
  induction fuel with
  | zero => intro i st size _ h; simp [loop] at h
  | succ fuel ih =>
    intro i st size hst h
    cases hp : pass env i st with
    | done r =>
      rw [loop_succ_done hp] at h ⊢
      obtain ⟨nonce, hm, ht, hb, hs⟩ := pass_done_success hp h
      exact ⟨[], i, st.block, st.powData, nonce, by simpa using ht, hm, hb, hst, hs⟩
    | next evs st1 =>
      rw [loop_succ_next hp] at h ⊢
      obtain ⟨pre, j, b, p, nonce, ht, hm, hb, hd, hs⟩ :=
        ih (i + 1) st1 (pass_next_fresh hp hst) h
      exact ⟨evs ++ pre, j, b, p, nonce, by simp [ht], hm, hb, hd, hs⟩

theorem ctxDone_mono {env : Env} {s t : Nat} (hst : s ≤ t) (h : env.ctxDone s = true) :
    env.ctxDone t = true := by
  unfold Env.ctxDone at h ⊢
  cases hc : env.cancelledAt with
  | none => simp [hc] at h
  | some c =>
    simp only [hc, decide_eq_true_eq] at h ⊢
    omega

/-- The three ways `DoPoW` can stop before the loop, and the loop. -/
theorem DoPoW_cases (env : Env) (block : Block) (fuel : Nat) :
    (DoPoW env block fuel).trace = [] ∨
    ((DoPoW env block fuel).trace = [.serialize block] ∧
      ∃ e, (DoPoW env block fuel).outcome = .returned 0 (some e)) ∨
    ((DoPoW env block fuel).trace = [.serialize block] ∧
      (DoPoW env block fuel).outcome = .panicked) ∨
    (∃ powData, IsPoWDataOf env block powData ∧
      DoPoW env block fuel =
        (loop env fuel 0 { block := block, powData := powData }).after [.serialize block]) := by
  unfold DoPoW
  split_ifs with hctx
  · exact Or.inl rfl
  · cases hg : getPoWData env block with
    | fail e => exact Or.inr (Or.inl ⟨rfl, e, rfl⟩)
    | panic => exact Or.inr (Or.inr (Or.inl ⟨rfl, rfl⟩))
    | ret powData => exact Or.inr (Or.inr (Or.inr ⟨powData, getPoWData_ret hg, rfl⟩))

/-- An attempt that is reached starts on the data of the block as it is then. -/
theorem reach_fresh {env : Env} {block : Block} :
    ∀ {i : Nat} {pre : List Event} {st : PoWState}, reach env block i = some (pre, st) →
      IsPoWDataOf env st.block st.powData := by
  intro i
  induction i with
  | zero =>
    intro pre st h
    unfold reach at h
    split at h
    · exact absurd h (by simp)
    · split at h
      · rename_i powData hpow
        simp only [Option.some.injEq, Prod.mk.injEq] at h
        obtain ⟨_, rfl⟩ := h
        exact getPoWData_ret hpow
      · exact absurd h (by simp)
  | succ i ih =>
    intro pre st h
    unfold reach at h
    split at h
    · exact absurd h (by simp)
    · rename_i pre0 st0 hreach
      split at h
      · rename_i evs st1 hpass
        simp only [Option.some.injEq, Prod.mk.injEq] at h
        obtain ⟨_, rfl⟩ := h
        exact pass_next_fresh hpass (ih hreach)
      · exact absurd h (by simp)

/-- A run that reaches attempt `i` and leaves the loop in it. -/
theorem DoPoW_of_reach_done {env : Env} {block : Block} {i : Nat} {pre : List Event}
    {st : PoWState} {r : Run} {fuel : Nat} (hreach : reach env block i = some (pre, st))
    (hp : pass env i st = .done r) (hfuel : i < fuel) :
    DoPoW env block fuel = r.after pre := by
  obtain ⟨k, rfl⟩ : ∃ k, fuel = i + (k + 1) := ⟨fuel - i - 1, by omega⟩
  rw [DoPoW_of_reach hreach, loop_succ_done hp]

/-- C1: every mining attempt of `DoPoW` is fed the serialization of the block as
it is at that attempt, without its last `nonceBytes` bytes; the attempt that
follows a refresh which returned tips mines the block whose parents are these
tips; and a run that returns without error ends with the mining call whose
nonce it wrote, made on the data of the block it wrote the nonce to: the
nonce of the block is that nonce and its parents are the parents mined. -/
theorem C1_mined_data_matches_block (env : Env) (block : Block) (fuel : Nat) :
    (∀ j b p, Event.mine j b p ∈ (DoPoW env block fuel).trace → IsPoWDataOf env b p) ∧
    (∀ f j tips b p, env.refreshTipsFunc = some f →
      Event.refreshTips j ∈ (DoPoW env block fuel).trace → f j = .ok tips →
      Event.mine (j + 1) b p ∈ (DoPoW env block fuel).trace →
        b.Parents = tips ∧ IsPoWDataOf env b p) ∧
    (∀ size, (DoPoW env block fuel).outcome = .returned size none →
      ∃ pre j b p nonce, (DoPoW env block fuel).trace = pre ++ [.mine j b p] ∧
        env.Mine j p = .ok nonce ∧ (DoPoW env block fuel).block = b.setNonce nonce ∧
        IsPoWDataOf env b p ∧ (DoPoW env block fuel).block.Nonce = nonce ∧
        (DoPoW env block fuel).block.Parents = b.Parents) := by
  rcases DoPoW_cases env block fuel with h | ⟨h, e, he⟩ | ⟨h, hpanic⟩ | ⟨powData, hd, h⟩
  · rw [h]
    refine ⟨by simp, by simp, ?_⟩
    intro size ho
    unfold DoPoW at h ho
    split_ifs at h ho with hctx
    · exact absurd ho (by simp)
    · cases hg : getPoWData env block with
      | fail e => simp [hg] at h
      | panic => simp [hg] at h
      | ret powData => simp [hg] at h
  · rw [h, he]
    exact ⟨by simp, by simp, by simp⟩
  · rw [h, hpanic]
    exact ⟨by simp, by simp, by simp⟩
  · rw [h]
    have hfresh : ∀ j b p, Event.mine j b p ∈
        ((loop env fuel 0 { block := block, powData := powData }).after [.serialize block]).trace →
        IsPoWDataOf env b p := by
      intro j b p hm
      simp only [Run.after_trace, List.singleton_append, List.mem_cons, reduceCtorEq,
        false_or] at hm
      exact loop_mine_fresh fuel 0 _ hd hm
    refine ⟨hfresh, ?_, ?_⟩
    · intro f j tips b p hf _ hj hm
      refine ⟨?_, hfresh _ _ _ hm⟩
      simp only [Run.after_trace, List.singleton_append, List.mem_cons, reduceCtorEq,
        false_or] at hm
      exact loop_mine_after_refresh hf fuel 0 _ (Nat.zero_le j) hj hm
    · intro size ho
      obtain ⟨pre, j, b, p, nonce, ht, hm, hb, hdat, _⟩ := loop_success fuel 0 _ hd ho
      refine ⟨.serialize block :: pre, j, b, p, nonce, by simp [ht], hm, hb, hdat, ?_, ?_⟩
      · rw [Run.after_block, hb]
        rfl
      · rw [Run.after_block, hb]
        rfl

/-- The sample run with one refresh: the second attempt mines the block with the
refreshed parents `[7]` on that block's data. -/
theorem C1_mined_data_matches_block_witness :
    (block1.setParents [7]).Parents = [7] ∧
      IsPoWDataOf envRefreshOnce (block1.setParents [7]) [7] :=
  (C1_mined_data_matches_block envRefreshOnce block1 2).2.1 (fun _ => .ok [7]) 0 [7]
    (block1.setParents [7]) [7] rfl (by decide) rfl (by decide)

/-- C3: when the mining call of an attempt that `DoPoW` reaches returns a nonce
`n`, `DoPoW` makes no further call, sets `block.Nonce` to `n` leaving the other
fields of the block as they were, and returns the length of the data of that
attempt plus `nonceBytes` without error.  The block mined has a serialization
of at least `nonceBytes` bytes and the value returned is its length; with a
serializer whose output length does not depend on the nonce, it is also the
length of the serialization of the block as `DoPoW` leaves it. -/
theorem C3_success_returns_block_size (env : Env) (block : Block) (i : Nat)
    (pre : List Event) (st : PoWState) (nonce fuel : Nat)
    (hreach : reach env block i = some (pre, st))
    (hmine : env.Mine i st.powData = .ok nonce) (hfuel : i < fuel) :
    DoPoW env block fuel =
      { trace := pre ++ [.mine i st.block st.powData]
        block := st.block.setNonce nonce
        outcome := .returned (st.powData.length + nonceBytes) none } ∧
    (DoPoW env block fuel).block.Nonce = nonce ∧
    (DoPoW env block fuel).block =
      { ProtocolVersion := st.block.ProtocolVersion
        Parents := st.block.Parents
        Payload := st.block.Payload
        Nonce := nonce } ∧
    (DoPoW env block fuel).outcome = .returned (st.powData.length + 8) none ∧
    (∃ blockData, env.Serialize st.block = .ok blockData ∧ nonceBytes ≤ blockData.length ∧
      st.powData.length + nonceBytes = blockData.length) ∧
    ((∀ (b : Block) (n : Nat) (data : List Nat), env.Serialize b = .ok data →
        ∃ data2, env.Serialize
            { ProtocolVersion := b.ProtocolVersion, Parents := b.Parents, Payload := b.Payload,
              Nonce := n } = .ok data2 ∧
          data2.length = data.length) →
      ∃ blockData, env.Serialize (DoPoW env block fuel).block = .ok blockData ∧
        8 ≤ blockData.length ∧
        (DoPoW env block fuel).outcome = .returned blockData.length none) := by
  have hrun : DoPoW env block fuel =
      { trace := pre ++ [.mine i st.block st.powData]
        block := st.block.setNonce nonce
        outcome := .returned (st.powData.length + nonceBytes) none } := by
    rw [DoPoW_of_reach_done hreach (pass_of_nonce hmine) hfuel]
    rfl
  have hdata : ∃ blockData, env.Serialize st.block = .ok blockData ∧
      nonceBytes ≤ blockData.length ∧ st.powData.length + nonceBytes = blockData.length := by
    obtain ⟨blockData, hser, hlen, hdata⟩ := reach_fresh hreach
    refine ⟨blockData, hser, hlen, ?_⟩
    rw [hdata, List.length_take]
    omega
  refine ⟨hrun, ?_, ?_, ?_, hdata, ?_⟩
  · rw [hrun]
    rfl
  · rw [hrun]
    rfl
  · rw [hrun]
    rfl
  · intro hstable
    obtain ⟨blockData, hser, hlen, hsize⟩ := hdata
    obtain ⟨data2, hser2, hlen2⟩ := hstable st.block nonce blockData hser
    refine ⟨data2, ?_, ?_, ?_⟩
    · rw [hrun]
      exact hser2
    · rw [hlen2]
      exact hlen
    · rw [hrun, hlen2, ← hsize]

/-- The sample run with one refresh: the second attempt finds `42`; `DoPoW`
leaves the block with nonce `42` and returns 9, the length of its
serialization. -/
theorem C3_success_returns_block_size_witness :
    (DoPoW envRefreshOnce block1 2).block.Nonce = 42 ∧
    (DoPoW envRefreshOnce block1 2).block =
      { ProtocolVersion := 2, Parents := [7], Payload := [], Nonce := 42 } ∧
    (DoPoW envRefreshOnce block1 2).outcome = .returned (([7] : List Nat).length + 8) none ∧
    ∃ blockData, envRefreshOnce.Serialize (DoPoW envRefreshOnce block1 2).block = .ok blockData ∧
      8 ≤ blockData.length ∧
      (DoPoW envRefreshOnce block1 2).outcome = .returned blockData.length none :=
  have h := C3_success_returns_block_size envRefreshOnce block1 1
    [.serialize block1, .mine 0 block1 [1], .refreshTips 0, .serialize (block1.setParents [7])]
    { block := block1.setParents [7], powData := [7] } 42 2 (by decide) (by decide) (by decide)
  ⟨h.2.1, h.2.2.1, h.2.2.2.1,
    h.2.2.2.2.2 (fun b n data hs =>
      ⟨b.Parents ++ [n, 0, 0, 0, 0, 0, 0, 0], rfl, by
        have hd : data = b.Parents ++ [b.Nonce, 0, 0, 0, 0, 0, 0, 0] :=
          (Except.ok.inj hs).symm
        rw [hd]
        simp⟩)⟩

/-- C8: when the outer context is done on entry, `DoPoW` returns
`(0, ErrOperationAborted)` having made no call at all (no serialization, no
mining attempt, no refresh) and having left the block as it was. -/
theorem C8_done_on_entry (env : Env) (block : Block) (fuel : Nat)
    (hctx : env.ctxDone entryTime = true) :
    DoPoW env block fuel =
      { trace := [], block := block, outcome := .returned 0 (some .ErrOperationAborted) } := by
  simp [DoPoW, hctx]

/-- A context cancelled before the call: nothing is called, the block stays. -/
theorem C8_done_on_entry_witness :
    DoPoW envDoneOnEntry block1 3 =
      { trace := [], block := block1, outcome := .returned 0 (some .ErrOperationAborted) } :=
  C8_done_on_entry envDoneOnEntry block1 3 (by decide)

/-- C2, as stated, fails: with the outer context cancelled while the first
mining attempt runs (instant 1), that attempt is reached, its mining call
returns `ErrCancelled` with the outer context done, and `DoPoW` returns
`ErrOperationAborted`; but the refresher is called after that and the parents
of the block are replaced by the tips `[7]`. -/
theorem C2_counterexample :
    reach envCancelledWhileMining block1 0 =
      some ([.serialize block1], { block := block1, powData := [1] }) ∧
    envCancelledWhileMining.refreshTipsFunc.isSome = true ∧
    envCancelledWhileMining.Mine 0 [1] = .error .ErrCancelled ∧
    envCancelledWhileMining.ctxDone (mineReturnTime 0) = true ∧
    (DoPoW envCancelledWhileMining block1 1).outcome =
      .returned 0 (some .ErrOperationAborted) ∧
    (DoPoW envCancelledWhileMining block1 1).trace =
      [.serialize block1, .mine 0 block1 [1], .refreshTips 0,
        .serialize (block1.setParents [7])] ∧
    block1.Parents = [1] ∧
    (DoPoW envCancelledWhileMining block1 1).block.Parents = [7] := by
  decide

/-- C2, amended: when the mining call of an attempt returns cancelled with a
refresher supplied and the outer context done, `DoPoW` calls the refresher
once more, in that attempt, and makes no mining attempt and no refresh after
it.  When the refresher fails, the block stays as it was and `DoPoW` returns
`ErrOperationAborted`.  When it returns tips, they replace the parents of the
block, the block is serialized again, and `DoPoW` returns
`ErrOperationAborted`, unless that serialization has fewer than `nonceBytes`
bytes, where it panics. -/
theorem C2_outer_cancellation_aborts (env : Env) (block : Block) (i : Nat)
    (pre : List Event) (st : PoWState) (err : GoError)
    (f : Nat → Except GoError (List BlockID)) (fuel : Nat)
    (hreach : reach env block i = some (pre, st))
    (hf : env.refreshTipsFunc = some f)
    (hmine : env.Mine i st.powData = .error err) (hc : err.Is .ErrCancelled = true)
    (hctx : env.ctxDone (mineReturnTime i) = true) (hfuel : i < fuel) :
    DoPoW env block fuel =
      match f i with
      | .error _ =>
        { trace := pre ++ [.mine i st.block st.powData, .refreshTips i]
          block := st.block
          outcome := .returned 0 (some .ErrOperationAborted) }
      | .ok tips =>
        { trace := pre ++ [.mine i st.block st.powData, .refreshTips i,
            .serialize (st.block.setParents tips)]
          block := st.block.setParents tips
          outcome :=
            match env.Serialize (st.block.setParents tips) with
            | .error _ => .returned 0 (some .ErrOperationAborted)
            | .ok blockData =>
              if blockData.length < nonceBytes then .panicked
              else .returned 0 (some .ErrOperationAborted) } := by
  have hcheck : env.ctxDone (checkTime i) = true :=
    ctxDone_mono (by unfold mineReturnTime checkTime; omega) hctx
  cases hfi : f i with
  | error e =>
    have hp := pass_of_refresh_error hmine hc hf hfi
    simp only [onError, hcheck, if_true] at hp
    rw [DoPoW_of_reach_done hreach hp hfuel]
    rfl
  | ok tips =>
    have hp := pass_of_refresh_ok hmine hc hf hfi
    unfold getPoWData at hp
    cases hs : env.Serialize (st.block.setParents tips) with
    | error code =>
      simp only [hs, onError, hcheck, if_true] at hp
      rw [DoPoW_of_reach_done hreach hp hfuel]
      simp [Run.after, hs]
    | ok blockData =>
      by_cases hlen : blockData.length < nonceBytes
      · simp only [hs, hlen, if_true] at hp
        rw [DoPoW_of_reach_done hreach hp hfuel]
        simp [Run.after, hs, hlen]
      · simp only [hs, hlen, if_false, onError, hcheck, if_true] at hp
        rw [DoPoW_of_reach_done hreach hp hfuel]
        simp [Run.after, hs, hlen]

/-- The sample run with the context cancelled while the first attempt mines. -/
theorem C2_outer_cancellation_aborts_witness :
    DoPoW envCancelledWhileMining block1 1 =
      { trace := [.serialize block1] ++ [.mine 0 block1 [1], .refreshTips 0,
            .serialize (block1.setParents [7])]
        block := block1.setParents [7]
        outcome := .returned 0 (some .ErrOperationAborted) } :=
  C2_outer_cancellation_aborts envCancelledWhileMining block1 0 [.serialize block1]
    { block := block1, powData := [1] } .ErrCancelled (fun _ => .ok [7]) 1
    (by decide) rfl (by decide) (by decide) (by decide) (by decide)

/-- C4, as stated, fails: in the sample run the refresher fails with `other 5`
and the outer context is cancelled while it runs; `DoPoW` returns
`ErrOperationAborted`, not `other 5`. -/
theorem C4_counterexample :
    reach envRefreshFailsCancelled block1 0 =
      some ([.serialize block1], { block := block1, powData := [1] }) ∧
    envRefreshFailsCancelled.Mine 0 [1] = .error .ErrCancelled ∧
    envRefreshFailsCancelled.ctxDone (mineReturnTime 0) = false ∧
    envRefreshFailsCancelled.refreshTipsFunc.map (fun f => f 0) = some (.error (.other 5)) ∧
    (DoPoW envRefreshFailsCancelled block1 1).trace =
      [.serialize block1, .mine 0 block1 [1], .refreshTips 0] ∧
    (DoPoW envRefreshFailsCancelled block1 1).outcome =
      .returned 0 (some .ErrOperationAborted) ∧
    (DoPoW envRefreshFailsCancelled block1 1).outcome ≠ .returned 0 (some (.other 5)) := by
  decide

/-- C4, amended: when the refresher fails with an error `e` that is not and does
not wrap `pow.ErrCancelled`, `DoPoW` returns with block size 0 right after that
call: no further mining attempt, no further refresh, the block (parents and
nonce) as it was before the call.  The error returned is `e` when the outer
context is not done at the check that follows, and `ErrOperationAborted` when
it is. -/
theorem C4_refresh_error_is_final (env : Env) (block : Block) (i : Nat)
    (pre : List Event) (st : PoWState) (err e : GoError)
    (f : Nat → Except GoError (List BlockID)) (fuel : Nat)
    (hreach : reach env block i = some (pre, st))
    (hf : env.refreshTipsFunc = some f)
    (hmine : env.Mine i st.powData = .error err) (hc : err.Is .ErrCancelled = true)
    (he : f i = .error e) (hne : e.Is .ErrCancelled = false) (hfuel : i < fuel) :
    DoPoW env block fuel =
      { trace := pre ++ [.mine i st.block st.powData, .refreshTips i]
        block := st.block
        outcome := .returned 0
          (some (if env.ctxDone (checkTime i) then .ErrOperationAborted else e)) } := by
  have hp := pass_of_refresh_error hmine hc hf he
  unfold onError at hp
  by_cases hcheck : env.ctxDone (checkTime i) = true
  · simp only [hcheck, if_true] at hp
    rw [DoPoW_of_reach_done hreach hp hfuel]
    simp [Run.after, hcheck]
  · simp only [hcheck, hne, if_false] at hp
    rw [DoPoW_of_reach_done hreach hp hfuel]
    simp [Run.after, hcheck]

/-- The sample run whose refresher fails with `other 5` under a live context:
`DoPoW` returns that error. -/
theorem C4_refresh_error_is_final_witness :
    DoPoW envRefreshFails block1 1 =
      { trace := [.serialize block1] ++ [.mine 0 block1 [1], .refreshTips 0]
        block := block1
        outcome := .returned 0
          (some (if envRefreshFails.ctxDone (checkTime 0) then .ErrOperationAborted
            else .other 5)) } :=
  C4_refresh_error_is_final envRefreshFails block1 0 [.serialize block1]
    { block := block1, powData := [1] } .ErrCancelled (.other 5) (fun _ => .error (.other 5)) 1
    (by decide) rfl (by decide) (by decide) rfl (by decide) (by decide)

/-! ## The partitioner -/

theorem consumeInputs_nil {σ : Type} (f : σ → UTXO → (Bool × Bool) × σ) (s : σ) :
    consumeInputs f [] s = (([], []), s) := rfl

theorem consumeInputs_abort {σ : Type} {f : σ → UTXO → (Bool × Bool) × σ} {s s1 : σ}
    {input : UTXO} {c : Bool} (rest : List UTXO) (h : f s input = ((c, true), s1)) :
    consumeInputs f (input :: rest) s = (([], input :: rest), s1) := by
  simp [consumeInputs, h]

theorem consumeInputs_consume {σ : Type} {f : σ → UTXO → (Bool × Bool) × σ} {s s1 : σ}
    {input : UTXO} (rest : List UTXO) (h : f s input = ((true, false), s1)) :
    consumeInputs f (input :: rest) s =
      ((input :: (consumeInputs f rest s1).1.1, (consumeInputs f rest s1).1.2),
        (consumeInputs f rest s1).2) := by
  simp [consumeInputs, h]

theorem consumeInputs_skip {σ : Type} {f : σ → UTXO → (Bool × Bool) × σ} {s s1 : σ}
    {input : UTXO} (rest : List UTXO) (h : f s input = ((false, false), s1)) :
    consumeInputs f (input :: rest) s =
      (((consumeInputs f rest s1).1.1, input :: (consumeInputs f rest s1).1.2),
        (consumeInputs f rest s1).2) := by
  simp [consumeInputs, h]

/-- The three answers of a predicate. -/
theorem predicate_cases {σ : Type} (r : (Bool × Bool) × σ) :
    (∃ c, r = ((c, true), r.2)) ∨ r = ((true, false), r.2) ∨ r = ((false, false), r.2) := by
  obtain ⟨⟨c, a⟩, s⟩ := r
  cases a
  · cases c
    · exact Or.inr (Or.inr rfl)
    · exact Or.inr (Or.inl rfl)
  · exact Or.inl ⟨c, rfl⟩

/-- Partition completeness: consumed and remaining together are the candidates. -/
theorem consumeInputs_perm {σ : Type} (f : σ → UTXO → (Bool × Bool) × σ) :
    ∀ (inputs : List UTXO) (s : σ),
      ((consumeInputs f inputs s).1.1 ++ (consumeInputs f inputs s).1.2).Perm inputs := by
  intro inputs
  induction inputs with
  | nil => intro s; simp [consumeInputs]
  | cons input rest ih =>
    intro s
    rcases predicate_cases (f s input) with ⟨c, h⟩ | h | h
    · rw [consumeInputs_abort rest h]
      simp
    · rw [consumeInputs_consume rest h]
      simpa using ih _
    · rw [consumeInputs_skip rest h]
      simp only
      exact (List.perm_middle).trans (List.Perm.cons _ (ih _))

/-- With pairwise distinct candidates no consumed one is among the remaining. -/
theorem consumeInputs_disjoint {σ : Type} (f : σ → UTXO → (Bool × Bool) × σ)
    (inputs : List UTXO) (s : σ) (hnd : inputs.Nodup) :
    ∀ u ∈ (consumeInputs f inputs s).1.1, u ∉ (consumeInputs f inputs s).1.2 := by
  have hp := consumeInputs_perm f inputs s
  have := (hp.nodup_iff).2 hnd
  intro u hu hr
  exact (List.disjoint_of_nodup_append this) hu hr

theorem consumeInputs_consumed_subset {σ : Type} (f : σ → UTXO → (Bool × Bool) × σ)
    (inputs : List UTXO) (s : σ) :
    ∀ u ∈ (consumeInputs f inputs s).1.1, u ∈ inputs := by
  intro u hu
  exact (consumeInputs_perm f inputs s).subset (List.mem_append_left _ hu)

/-! ## The two closures -/

theorem basicPredicate_tokens {lim : Limits} {b : SpamBuilder} {u : UTXO}
    (h : u.hasNativeTokens = true) :
    basicOutputSendPredicate lim b u = ((false, false), b) := by
  simp only [UTXO.hasNativeTokens, decide_eq_true_eq] at h
  simp [basicOutputSendPredicate, h]

theorem basicPredicate_added {lim : Limits} {b : SpamBuilder} {u : UTXO}
    (h : u.hasNativeTokens = false) (hroom : b.consumedInputs.length < lim.MaxInputsCount) :
    basicOutputSendPredicate lim b u =
      ((true, false), { b with consumedInputs := b.consumedInputs ++ [u] }) := by
  simp only [UTXO.hasNativeTokens, decide_eq_false_iff_not, not_not] at h
  simp [basicOutputSendPredicate, h, SpamBuilder.AddInput, hroom]

theorem basicPredicate_full {lim : Limits} {b : SpamBuilder} {u : UTXO}
    (h : u.hasNativeTokens = false) (hfull : ¬ b.consumedInputs.length < lim.MaxInputsCount) :
    basicOutputSendPredicate lim b u = ((false, true), b) := by
  simp only [UTXO.hasNativeTokens, decide_eq_false_iff_not, not_not] at h
  simp [basicOutputSendPredicate, h, SpamBuilder.AddInput, hfull]

theorem nativePredicate_no_tokens {lim : Limits} {recv : LedgerAccount} {b : SpamBuilder}
    {u : UTXO} (h : u.hasNativeTokens = false) :
    basicOutputSendNativeTokensPredicate lim recv b u = ((false, false), b) := by
  simp only [UTXO.hasNativeTokens, decide_eq_false_iff_not, not_not] at h
  simp [basicOutputSendNativeTokensPredicate, h]

theorem nativePredicate_added {lim : Limits} {recv : LedgerAccount} {b : SpamBuilder}
    {u : UTXO} (h : u.hasNativeTokens = true)
    (hin : b.consumedInputs.length < lim.MaxInputsCount)
    (hout : b.createdOutputs.length < lim.MaxOutputsCount) :
    basicOutputSendNativeTokensPredicate lim recv b u =
      ((true, false), { b with consumedInputs := b.consumedInputs ++ [u],
                               createdOutputs := b.createdOutputs ++ [u.sentTo recv] }) := by
  simp only [UTXO.hasNativeTokens, decide_eq_true_eq] at h
  simp [basicOutputSendNativeTokensPredicate, h, SpamBuilder.AddInput, SpamBuilder.AddOutput,
    SpamBuilder.Clone, hin, hout, UTXO.sentTo]

theorem nativePredicate_full {lim : Limits} {recv : LedgerAccount} {b : SpamBuilder}
    {u : UTXO} (h : u.hasNativeTokens = true)
    (hfull : ¬ (b.consumedInputs.length < lim.MaxInputsCount ∧
      b.createdOutputs.length < lim.MaxOutputsCount)) :
    basicOutputSendNativeTokensPredicate lim recv b u = ((false, true), b) := by
  simp only [UTXO.hasNativeTokens, decide_eq_true_eq] at h
  by_cases hin : b.consumedInputs.length < lim.MaxInputsCount
  · have hout : ¬ b.createdOutputs.length < lim.MaxOutputsCount := fun h2 => hfull ⟨hin, h2⟩
    simp [basicOutputSendNativeTokensPredicate, h, SpamBuilder.AddInput, SpamBuilder.AddOutput,
      SpamBuilder.Clone, hin, hout]
  · simp [basicOutputSendNativeTokensPredicate, h, SpamBuilder.AddInput, SpamBuilder.Clone, hin]

/-! ## The two scans -/

/-- The scan of `basicOutputSend` from any builder: what it adds, what it leaves. -/
theorem basicScan_spec (lim : Limits) :
    ∀ (pool : List UTXO) (b : SpamBuilder),
      (consumeInputs (basicOutputSendPredicate lim) pool b).2 =
        { b with consumedInputs :=
            b.consumedInputs ++ (consumeInputs (basicOutputSendPredicate lim) pool b).1.1 } ∧
      (∀ u ∈ (consumeInputs (basicOutputSendPredicate lim) pool b).1.1,
        u.hasNativeTokens = false) ∧
      (consumeInputs (basicOutputSendPredicate lim) pool b).1.2.filter UTXO.hasNativeTokens =
        pool.filter UTXO.hasNativeTokens := by
  intro pool
  induction pool with
  | nil => intro b; simp [consumeInputs]
  | cons u rest ih =>
    intro b
    cases ht : u.hasNativeTokens with
    | true =>
      rw [consumeInputs_skip rest (basicPredicate_tokens ht)]
      obtain ⟨h1, h2, h3⟩ := ih b
      refine ⟨h1, h2, ?_⟩
      simp [List.filter_cons, ht, h3]
    | false =>
      by_cases hroom : b.consumedInputs.length < lim.MaxInputsCount
      · rw [consumeInputs_consume rest (basicPredicate_added ht hroom)]
        obtain ⟨h1, h2, h3⟩ := ih { b with consumedInputs := b.consumedInputs ++ [u] }
        refine ⟨?_, ?_, ?_⟩
        · rw [h1]
          simp
        · intro v hv
          rcases List.mem_cons.1 hv with rfl | hv
          · exact ht
          · exact h2 v hv
        · simp only [List.filter_cons, ht] at h3 ⊢
          simpa using h3
      · rw [consumeInputs_abort rest (basicPredicate_full ht hroom)]
        simp

/-- The scan of `basicOutputSend` when the builder has room for every token-free
output: these are consumed, the others remain. -/
theorem basicScan_room (lim : Limits) :
    ∀ (pool : List UTXO) (b : SpamBuilder),
      b.consumedInputs.length + (pool.filter (fun u => !u.hasNativeTokens)).length ≤
        lim.MaxInputsCount →
      (consumeInputs (basicOutputSendPredicate lim) pool b).1 =
        (pool.filter (fun u => !u.hasNativeTokens), pool.filter UTXO.hasNativeTokens) := by
  intro pool
  induction pool with
  | nil => intro b _; simp [consumeInputs]
  | cons u rest ih =>
    intro b hroom
    cases ht : u.hasNativeTokens with
    | true =>
      rw [consumeInputs_skip rest (basicPredicate_tokens ht)]
      simp only [List.filter_cons, ht, Bool.not_true, Bool.false_eq_true, if_false,
        if_true] at hroom ⊢
      rw [ih b hroom]
    | false =>
      simp only [List.filter_cons, ht, Bool.not_false, if_true, List.length_cons] at hroom
      have hlt : b.consumedInputs.length < lim.MaxInputsCount := by omega
      rw [consumeInputs_consume rest (basicPredicate_added ht hlt)]
      have := ih { b with consumedInputs := b.consumedInputs ++ [u] }
        (by simp only [List.length_append, List.length_singleton]; omega)
      simp only [List.filter_cons, ht, Bool.not_false, if_true, Bool.false_eq_true, if_false]
      rw [this]

/-- The scan of `basicOutputSendNativeTokens` from any builder. -/
theorem nativeScan_spec (lim : Limits) (recv : LedgerAccount) :
    ∀ (pool : List UTXO) (b : SpamBuilder),
      (consumeInputs (basicOutputSendNativeTokensPredicate lim recv) pool b).2 =
        { b with
          consumedInputs := b.consumedInputs ++
            (consumeInputs (basicOutputSendNativeTokensPredicate lim recv) pool b).1.1
          createdOutputs := b.createdOutputs ++
            ((consumeInputs (basicOutputSendNativeTokensPredicate lim recv) pool b).1.1).map
              (fun u => u.sentTo recv) } ∧
      (∀ u ∈ (consumeInputs (basicOutputSendNativeTokensPredicate lim recv) pool b).1.1,
        u.hasNativeTokens = true) ∧
      (consumeInputs (basicOutputSendNativeTokensPredicate lim recv) pool b).1.2.filter
          (fun u => !u.hasNativeTokens) =
        pool.filter (fun u => !u.hasNativeTokens) := by
  intro pool
  induction pool with
  | nil => intro b; simp [consumeInputs]
  | cons u rest ih =>
    intro b
    cases ht : u.hasNativeTokens with
    | false =>
      rw [consumeInputs_skip rest (nativePredicate_no_tokens ht)]
      obtain ⟨h1, h2, h3⟩ := ih b
      refine ⟨h1, h2, ?_⟩
      simp [List.filter_cons, ht, h3]
    | true =>
      by_cases hroom : b.consumedInputs.length < lim.MaxInputsCount ∧
          b.createdOutputs.length < lim.MaxOutputsCount
      · rw [consumeInputs_consume rest (nativePredicate_added ht hroom.1 hroom.2)]
        obtain ⟨h1, h2, h3⟩ := ih
          { b with
            consumedInputs := b.consumedInputs ++ [u]
            createdOutputs := b.createdOutputs ++ [u.sentTo recv] }
        refine ⟨?_, ?_, ?_⟩
        · rw [h1]
          simp
        · intro v hv
          rcases List.mem_cons.1 hv with rfl | hv
          · exact ht
          · exact h2 v hv
        · simp only [List.filter_cons, ht] at h3 ⊢
          simpa using h3
      · rw [consumeInputs_abort rest (nativePredicate_full ht hroom)]
        simp

/-- The scan of `basicOutputSendNativeTokens` when the builder has room for every
token-bearing output: these are consumed, the others remain. -/
theorem nativeScan_room (lim : Limits) (recv : LedgerAccount) :
    ∀ (pool : List UTXO) (b : SpamBuilder),
      b.consumedInputs.length + (pool.filter UTXO.hasNativeTokens).length ≤
        lim.MaxInputsCount →
      b.createdOutputs.length + (pool.filter UTXO.hasNativeTokens).length ≤
        lim.MaxOutputsCount →
      (consumeInputs (basicOutputSendNativeTokensPredicate lim recv) pool b).1 =
        (pool.filter UTXO.hasNativeTokens, pool.filter (fun u => !u.hasNativeTokens)) := by
  intro pool
  induction pool with
  | nil => intro b _ _; simp [consumeInputs]
  | cons u rest ih =>
    intro b hin hout
    cases ht : u.hasNativeTokens with
    | false =>
      rw [consumeInputs_skip rest (nativePredicate_no_tokens ht)]
      simp only [List.filter_cons, ht, Bool.not_false, Bool.false_eq_true, if_false,
        if_true] at hin hout ⊢
      rw [ih b hin hout]
    | true =>
      simp only [List.filter_cons, ht, if_true, List.length_cons] at hin hout
      have hlt1 : b.consumedInputs.length < lim.MaxInputsCount := by omega
      have hlt2 : b.createdOutputs.length < lim.MaxOutputsCount := by omega
      rw [consumeInputs_consume rest (nativePredicate_added ht hlt1 hlt2)]
      have := ih
        { b with
          consumedInputs := b.consumedInputs ++ [u]
          createdOutputs := b.createdOutputs ++ [u.sentTo recv] }
        (by simp only [List.length_append, List.length_singleton]; omega)
        (by simp only [List.length_append, List.length_singleton]; omega)
      simp only [List.filter_cons, ht, Bool.not_true, if_true, Bool.false_eq_true, if_false]
      rw [this]

/-! ## The two send functions -/

theorem appendRemainder_some (remaining : List UTXO) (u : UTXO) :
    appendRemainder remaining (some u) = remaining ++ [u] := rfl

theorem appendRemainder_none (remaining : List UTXO) :
    appendRemainder remaining none = remaining := rfl

theorem Accounts.write_same (accounts : Accounts) (p : AccountRef) (a : LedgerAccount) :
    Accounts.write accounts p a p = a := by
  simp [Accounts.write]

theorem Accounts.write_other (accounts : Accounts) {p q : AccountRef} (a : LedgerAccount)
    (h : q ≠ p) : Accounts.write accounts p a q = accounts q := by
  simp [Accounts.write, h]

/-- The run when the submission fails. -/
theorem submitAndBook_error {env : SpamEnv} {pre : List Call} {accounts accounts1 : Accounts}
    {s r : AccountRef} {b : SpamBuilder} {remaining : List UTXO} {err : GoError}
    (h : env.BuildTransactionPayloadBlockAndSend b accounts = (.error err, accounts1)) :
    submitAndBook env pre accounts s r b remaining =
      { calls := pre ++ [.BuildTransactionPayloadBlockAndSend b (.error err)],
        accounts := accounts1, result := .fail err } := by
  unfold submitAndBook
  simp only [h]

/-- The run when the submission succeeds: the write to the sender account, and
the pool of a sender that is not the receiver. -/
theorem submitAndBook_ok {env : SpamEnv} {pre : List Call} {accounts accounts1 : Accounts}
    {s r : AccountRef} {b : SpamBuilder} {remaining created : List UTXO}
    {remainder : Option UTXO}
    (h : env.BuildTransactionPayloadBlockAndSend b accounts =
      (.ok (created, remainder), accounts1)) :
    Call.SetBasicOutputs (appendRemainder remaining remainder) ∈
        (submitAndBook env pre accounts s r b remaining).calls ∧
      (∀ e, (submitAndBook env pre accounts s r b remaining).result ≠ .fail e) ∧
      (s ≠ r → ((submitAndBook env pre accounts s r b remaining).accounts s).BasicOutputs =
        appendRemainder remaining remainder) := by
  unfold submitAndBook
  simp only [h]
  cases env.bookCreatedOutputs created
      (Accounts.write accounts1 s
        ((accounts1 s).SetBasicOutputs (appendRemainder remaining remainder)) r) with
  | error e =>
    refine ⟨by simp, by simp, ?_⟩
    intro _
    simp [Accounts.write, LedgerAccount.SetBasicOutputs, LedgerAccount.BasicOutputs]
  | ok booked =>
    refine ⟨by simp, by simp, ?_⟩
    intro hsr
    simp [Accounts.write, hsr, LedgerAccount.SetBasicOutputs, LedgerAccount.BasicOutputs]

/-- The submission call of `submitAndBook`. -/
theorem submitAndBook_call {env : SpamEnv} {pre : List Call} {accounts : Accounts}
    {s r : AccountRef} {b b1 : SpamBuilder} {remaining : List UTXO}
    {res : Except GoError (List UTXO × Option UTXO)}
    (hpre : ∀ b2 res2, Call.BuildTransactionPayloadBlockAndSend b2 res2 ∉ pre)
    (h : Call.BuildTransactionPayloadBlockAndSend b1 res ∈
      (submitAndBook env pre accounts s r b remaining).calls) :
    b1 = b ∧ res = (env.BuildTransactionPayloadBlockAndSend b accounts).1 := by
  unfold submitAndBook at h
  cases hs : env.BuildTransactionPayloadBlockAndSend b accounts with
  | mk res0 accounts1 =>
    cases res0 with
    | error err =>
      simp only [hs, List.mem_append, List.mem_singleton,
        Call.BuildTransactionPayloadBlockAndSend.injEq] at h
      rcases h with h | h
      · exact absurd h (hpre _ _)
      · exact h
    | ok p =>
      obtain ⟨created, remainder⟩ := p
      simp only [hs] at h
      cases hb : env.bookCreatedOutputs created
          (Accounts.write accounts1 s
            ((accounts1 s).SetBasicOutputs (appendRemainder remaining remainder)) r) <;>
      · simp only [hb, List.mem_append, List.mem_cons,
          Call.BuildTransactionPayloadBlockAndSend.injEq, reduceCtorEq, List.mem_nil_iff,
          or_false] at h
        rcases h with h | h
        · exact absurd h (hpre _ _)
        · exact h

/-- The run of `submitAndBook` that returns an error. -/
theorem submitAndBook_fail {env : SpamEnv} {pre : List Call} {accounts : Accounts}
    {s r : AccountRef} {b : SpamBuilder} {remaining : List UTXO} {e : GoError}
    (h : (submitAndBook env pre accounts s r b remaining).result = .fail e) :
    env.BuildTransactionPayloadBlockAndSend b accounts =
        (.error e, (submitAndBook env pre accounts s r b remaining).accounts) ∧
    (submitAndBook env pre accounts s r b remaining).calls =
      pre ++ [.BuildTransactionPayloadBlockAndSend b (.error e)] := by
  cases hs : env.BuildTransactionPayloadBlockAndSend b accounts with
  | mk res0 accounts1 =>
    cases res0 with
    | error err =>
      rw [submitAndBook_error hs] at h ⊢
      simp only [Completion.fail.injEq] at h
      subst h
      exact ⟨rfl, rfl⟩
    | ok p =>
      obtain ⟨created, remainder⟩ := p
      exact absurd h ((submitAndBook_ok hs).2.1 e)

/-- The ways `basicOutputSend` can go. -/
theorem basicOutputSend_cases (env : SpamEnv) (accounts : Accounts) (s r : AccountRef)
    (tags : List String) :
    ((accounts s).BasicOutputs = [] ∧ basicOutputSend env accounts s r tags =
      { calls := [], accounts := accounts,
        result := .fail (.wrapped .basicOutputs .ErrNoUTXOAvailable) }) ∨
    ((accounts s).BasicOutputs ≠ [] ∧
      (basicOutputScan env.limits (accounts s) tags).2.consumedInputs = [] ∧
      basicOutputSend env accounts s r tags =
      { calls := [.NewSpamBuilder, .consumeInputs (accounts s).BasicOutputs],
        accounts := accounts,
        result := .fail (.wrapped .filteredBasicOutputs .ErrNoUTXOAvailable) }) ∨
    ((accounts s).BasicOutputs ≠ [] ∧
      (basicOutputScan env.limits (accounts s) tags).2.consumedInputs ≠ [] ∧
      basicOutputSend env accounts s r tags =
      { calls := [.NewSpamBuilder, .consumeInputs (accounts s).BasicOutputs],
        accounts := accounts,
        result := .fail (.wrapped .basicOutput .ErrMaxOutputsCountExceeded) }) ∨
    ((accounts s).BasicOutputs ≠ [] ∧
      (basicOutputScan env.limits (accounts s) tags).2.consumedInputs ≠ [] ∧
      ∃ b, (basicOutputScan env.limits (accounts s) tags).2.AddOutput env.limits
          { Amount := 0, NativeTokens := [], Address := (accounts r).Address } = (true, b) ∧
        basicOutputSend env accounts s r tags =
          submitAndBook env [.NewSpamBuilder, .consumeInputs (accounts s).BasicOutputs]
            accounts s r b (basicOutputScan env.limits (accounts s) tags).1.2) := by
  unfold basicOutputSend
  by_cases hempty : (accounts s).BasicOutputs = []
  · left
    simp [hempty]
  · right
    have hlen : ¬ (accounts s).BasicOutputs.length < 1 := by
      cases hs : (accounts s).BasicOutputs with
      | nil => exact absurd hs hempty
      | cons _ _ => simp
    simp only [hlen, if_false]
    by_cases hc : (basicOutputScan env.limits (accounts s) tags).2.consumedInputs = []
    · left
      simp [hempty, hc, SpamBuilder.ConsumedInputsEmpty]
    · right
      have hce : (basicOutputScan env.limits (accounts s) tags).2.ConsumedInputsEmpty = false := by
        simpa [SpamBuilder.ConsumedInputsEmpty] using hc
      simp only [hce, Bool.false_eq_true, if_false]
      cases hadd : (basicOutputScan env.limits (accounts s) tags).2.AddOutput env.limits
          { Amount := 0, NativeTokens := [], Address := (accounts r).Address } with
      | mk ok b =>
        cases ok with
        | false =>
          left
          exact And.intro hempty (And.intro hc rfl)
        | true =>
          right
          exact And.intro hempty (And.intro hc ⟨b, rfl, rfl⟩)

/-- The ways `basicOutputSendNativeTokens` can go. -/
theorem basicOutputSendNativeTokens_cases (env : SpamEnv) (accounts : Accounts)
    (s r : AccountRef) (tags : List String) :
    ((accounts s).BasicOutputs = [] ∧ basicOutputSendNativeTokens env accounts s r tags =
      { calls := [], accounts := accounts,
        result := .fail (.wrapped .basicOutputs .ErrNoUTXOAvailable) }) ∨
    ((accounts s).BasicOutputs ≠ [] ∧
      (nativeTokensScan env.limits (accounts s) (accounts r) tags).2.consumedInputs = [] ∧
      basicOutputSendNativeTokens env accounts s r tags =
      { calls := [.NewSpamBuilder, .consumeInputs (accounts s).BasicOutputs],
        accounts := accounts,
        result := .fail (.wrapped .filteredBasicOutputs .ErrNoUTXOAvailable) }) ∨
    ((accounts s).BasicOutputs ≠ [] ∧
      (nativeTokensScan env.limits (accounts s) (accounts r) tags).2.consumedInputs ≠ [] ∧
      basicOutputSendNativeTokens env accounts s r tags =
        submitAndBook env [.NewSpamBuilder, .consumeInputs (accounts s).BasicOutputs]
          accounts s r (nativeTokensScan env.limits (accounts s) (accounts r) tags).2
          (nativeTokensScan env.limits (accounts s) (accounts r) tags).1.2) := by
  unfold basicOutputSendNativeTokens
  by_cases hempty : (accounts s).BasicOutputs = []
  · left
    simp [hempty]
  · right
    have hlen : ¬ (accounts s).BasicOutputs.length < 1 := by
      cases hs : (accounts s).BasicOutputs with
      | nil => exact absurd hs hempty
      | cons _ _ => simp
    simp only [hlen, if_false]
    by_cases hc : (nativeTokensScan env.limits (accounts s) (accounts r) tags).2.consumedInputs = []
    · left
      simp [hempty, hc, SpamBuilder.ConsumedInputsEmpty]
    · right
      have hce : (nativeTokensScan env.limits (accounts s) (accounts r)
          tags).2.ConsumedInputsEmpty = false := by
        simpa [SpamBuilder.ConsumedInputsEmpty] using hc
      simp only [hce, Bool.false_eq_true, if_false]
      exact ⟨hempty, hc, trivial⟩

theorem AddOutput_consumedInputs {lim : Limits} {b b1 : SpamBuilder} {o : BasicOutput}
    {ok : Bool} (h : b.AddOutput lim o = (ok, b1)) : b1.consumedInputs = b.consumedInputs := by
  unfold SpamBuilder.AddOutput at h
  split_ifs at h <;> simp only [Prod.mk.injEq] at h <;> obtain ⟨_, rfl⟩ := h <;> rfl

theorem no_submit_in_scan_calls (pool : List UTXO) :
    ∀ b2 res2, Call.BuildTransactionPayloadBlockAndSend b2 res2 ∉
      [Call.NewSpamBuilder, Call.consumeInputs pool] := by
  intro b2 res2
  simp

/-- The builder of the scan of `basicOutputSend` holds the consumed list. -/
theorem basicOutputScan_builder (lim : Limits) (s : LedgerAccount) (tags : List String) :
    (basicOutputScan lim s tags).2.consumedInputs = (basicOutputScan lim s tags).1.1 := by
  unfold basicOutputScan
  rw [(basicScan_spec lim s.BasicOutputs (NewSpamBuilder s tags)).1]
  simp [NewSpamBuilder]

/-- The builder of the scan of `basicOutputSendNativeTokens` holds the consumed
list and the outputs created for it. -/
theorem nativeTokensScan_builder (lim : Limits) (s r : LedgerAccount) (tags : List String) :
    (nativeTokensScan lim s r tags).2.consumedInputs = (nativeTokensScan lim s r tags).1.1 ∧
    (nativeTokensScan lim s r tags).2.createdOutputs =
      (nativeTokensScan lim s r tags).1.1.map (fun u => u.sentTo r) := by
  unfold nativeTokensScan
  rw [(nativeScan_spec lim r s.BasicOutputs (NewSpamBuilder s tags)).1]
  simp [NewSpamBuilder]

theorem hasNativeTokens_false_iff (u : UTXO) :
    u.hasNativeTokens = false ↔ u.output.NativeTokens = [] := by
  simp [UTXO.hasNativeTokens]

theorem hasNativeTokens_true_iff (u : UTXO) :
    u.hasNativeTokens = true ↔ u.output.NativeTokens ≠ [] := by
  simp [UTXO.hasNativeTokens]

/-- C5: native-token segregation.  Every input the scan of `basicOutputSend` adds
to its builder carries no native token, and so does every input of a builder
it submits; the token-bearing outputs of the remaining list are those of the
pool, in pool order.  Every input the scan of `basicOutputSendNativeTokens`
adds carries a native token, and so does every input of a builder it submits;
the token-free outputs of the remaining list are those of the pool, in pool
order.  When the maxima leave room for all outputs of the wanted kind (as for
two token-free outputs and one token-bearing output), the consumed list is
exactly the outputs of that kind and the remaining list exactly the others. -/
theorem C5_native_token_segregation (env : SpamEnv) (accounts : Accounts)
    (accountSender accountReceiver : AccountRef) (additionalTag : List String) :
    (∀ u ∈ (basicOutputScan env.limits (accounts accountSender)
        additionalTag).2.consumedInputs, u.output.NativeTokens = []) ∧
    (∀ b res, Call.BuildTransactionPayloadBlockAndSend b res ∈
        (basicOutputSend env accounts accountSender accountReceiver additionalTag).calls →
      ∀ u ∈ b.consumedInputs, u.output.NativeTokens = []) ∧
    (basicOutputScan env.limits (accounts accountSender) additionalTag).1.2.filter
        UTXO.hasNativeTokens =
      (accounts accountSender).BasicOutputs.filter UTXO.hasNativeTokens ∧
    (∀ u ∈ (nativeTokensScan env.limits (accounts accountSender) (accounts accountReceiver)
        additionalTag).2.consumedInputs, u.output.NativeTokens ≠ []) ∧
    (∀ b res, Call.BuildTransactionPayloadBlockAndSend b res ∈
        (basicOutputSendNativeTokens env accounts accountSender accountReceiver
          additionalTag).calls →
      ∀ u ∈ b.consumedInputs, u.output.NativeTokens ≠ []) ∧
    (nativeTokensScan env.limits (accounts accountSender) (accounts accountReceiver)
        additionalTag).1.2.filter (fun u => !u.hasNativeTokens) =
      (accounts accountSender).BasicOutputs.filter (fun u => !u.hasNativeTokens) ∧
    (((accounts accountSender).BasicOutputs.filter (fun u => !u.hasNativeTokens)).length ≤
        env.limits.MaxInputsCount →
      (basicOutputScan env.limits (accounts accountSender) additionalTag).1 =
        ((accounts accountSender).BasicOutputs.filter (fun u => !u.hasNativeTokens),
          (accounts accountSender).BasicOutputs.filter UTXO.hasNativeTokens)) ∧
    (((accounts accountSender).BasicOutputs.filter UTXO.hasNativeTokens).length ≤
        env.limits.MaxInputsCount →
      ((accounts accountSender).BasicOutputs.filter UTXO.hasNativeTokens).length ≤
        env.limits.MaxOutputsCount →
      (nativeTokensScan env.limits (accounts accountSender) (accounts accountReceiver)
          additionalTag).1 =
        ((accounts accountSender).BasicOutputs.filter UTXO.hasNativeTokens,
          (accounts accountSender).BasicOutputs.filter (fun u => !u.hasNativeTokens))) := by
  have hbasic : ∀ u ∈ (basicOutputScan env.limits (accounts accountSender)
      additionalTag).2.consumedInputs, u.output.NativeTokens = [] := by
    intro u hu
    rw [basicOutputScan_builder] at hu
    exact (hasNativeTokens_false_iff u).1
      ((basicScan_spec env.limits (accounts accountSender).BasicOutputs _).2.1 u hu)
  have hnative : ∀ u ∈ (nativeTokensScan env.limits (accounts accountSender)
      (accounts accountReceiver) additionalTag).2.consumedInputs,
      u.output.NativeTokens ≠ [] := by
    intro u hu
    rw [(nativeTokensScan_builder env.limits (accounts accountSender)
      (accounts accountReceiver) additionalTag).1] at hu
    exact (hasNativeTokens_true_iff u).1
      ((nativeScan_spec env.limits (accounts accountReceiver)
        (accounts accountSender).BasicOutputs _).2.1 u hu)
  refine ⟨hbasic, ?_, ?_, hnative, ?_, ?_, ?_, ?_⟩
  · intro b res hcall
    rcases basicOutputSend_cases env accounts accountSender accountReceiver additionalTag with
      ⟨_, h⟩ | ⟨_, _, h⟩ | ⟨_, _, h⟩ | ⟨_, _, b1, hadd, h⟩
    · rw [h] at hcall
      simp at hcall
    · rw [h] at hcall
      simp at hcall
    · rw [h] at hcall
      simp at hcall
    · rw [h] at hcall
      obtain ⟨rfl, _⟩ := submitAndBook_call (no_submit_in_scan_calls _) hcall
      rw [AddOutput_consumedInputs hadd]
      exact hbasic
  · exact (basicScan_spec env.limits (accounts accountSender).BasicOutputs _).2.2
  · intro b res hcall
    rcases basicOutputSendNativeTokens_cases env accounts accountSender accountReceiver
      additionalTag with ⟨_, h⟩ | ⟨_, _, h⟩ | ⟨_, _, h⟩
    · rw [h] at hcall
      simp at hcall
    · rw [h] at hcall
      simp at hcall
    · rw [h] at hcall
      obtain ⟨rfl, _⟩ := submitAndBook_call (no_submit_in_scan_calls _) hcall
      exact hnative
  · exact (nativeScan_spec env.limits (accounts accountReceiver)
      (accounts accountSender).BasicOutputs _).2.2
  · intro h
    exact basicScan_room env.limits (accounts accountSender).BasicOutputs _
      (by simpa [NewSpamBuilder] using h)
  · intro h1 h2
    exact nativeScan_room env.limits (accounts accountReceiver)
      (accounts accountSender).BasicOutputs _
      (by simpa [NewSpamBuilder] using h1) (by simpa [NewSpamBuilder] using h2)

/-- The sample pool of two token-free outputs and one token-bearing output:
`basicOutputSend` consumes the two, `basicOutputSendNativeTokens` the one. -/
theorem C5_native_token_segregation_witness :
    (basicOutputScan sampleSpamEnv.limits (sampleAccounts 0) []).1 =
        ([tokenFreeA, tokenFreeB], [tokenBearing]) ∧
      (nativeTokensScan sampleSpamEnv.limits (sampleAccounts 0) (sampleAccounts 1) []).1 =
        ([tokenBearing], [tokenFreeA, tokenFreeB]) :=
  ⟨(C5_native_token_segregation sampleSpamEnv sampleAccounts 0 1 []).2.2.2.2.2.2.1
      (by decide),
    (C5_native_token_segregation sampleSpamEnv sampleAccounts 0 1 []).2.2.2.2.2.2.2
      (by decide) (by decide)⟩

/-- After a successful submission `submitAndBook` writes the remaining list,
followed by the remainder if there is one, to the sender account. -/
theorem submitAndBook_reinjected {env : SpamEnv} {pre : List Call} {accounts : Accounts}
    {s r : AccountRef} {b0 b : SpamBuilder} {remaining created : List UTXO}
    {remainder : Option UTXO}
    (hpre : ∀ b2 res2, Call.BuildTransactionPayloadBlockAndSend b2 res2 ∉ pre)
    (hcall : Call.BuildTransactionPayloadBlockAndSend b (.ok (created, remainder)) ∈
      (submitAndBook env pre accounts s r b0 remaining).calls) :
    b = b0 ∧
    Call.SetBasicOutputs (appendRemainder remaining remainder) ∈
      (submitAndBook env pre accounts s r b0 remaining).calls ∧
    (∀ u, remainder = some u → Call.SetBasicOutputs (remaining ++ [u]) ∈
      (submitAndBook env pre accounts s r b0 remaining).calls) ∧
    (remainder = none → Call.SetBasicOutputs remaining ∈
      (submitAndBook env pre accounts s r b0 remaining).calls) ∧
    (s ≠ r →
      ((submitAndBook env pre accounts s r b0 remaining).accounts s).BasicOutputs =
        appendRemainder remaining remainder ∧
      (∀ u, remainder = some u →
        ((submitAndBook env pre accounts s r b0 remaining).accounts s).BasicOutputs =
          remaining ++ [u] ∧
        u ∈ ((submitAndBook env pre accounts s r b0 remaining).accounts s).BasicOutputs ∧
        ((submitAndBook env pre accounts s r b0 remaining).accounts s).BasicOutputs.getLast? =
          some u) ∧
      (remainder = none →
        ((submitAndBook env pre accounts s r b0 remaining).accounts s).BasicOutputs =
          remaining)) := by
  obtain ⟨rfl, hres⟩ := submitAndBook_call hpre hcall
  cases hs : env.BuildTransactionPayloadBlockAndSend b accounts with
  | mk res0 accounts1 =>
    rw [hs] at hres
    simp only at hres
    subst hres
    obtain ⟨hset, _, hpool⟩ := @submitAndBook_ok env pre accounts accounts1 s r b remaining
      created remainder hs
    refine ⟨rfl, hset, ?_, ?_, ?_⟩
    · intro u hu
      subst hu
      exact hset
    · intro hn
      subst hn
      exact hset
    · intro hsr
      have hp := hpool hsr
      refine ⟨hp, ?_, ?_⟩
      · intro u hu
        subst hu
        rw [hp, appendRemainder_some]
        exact ⟨rfl, by simp, by simp⟩
      · intro hn
        subst hn
        rw [hp, appendRemainder_none]

/-- With pairwise distinct candidates and a remainder that is not among them, no
consumed candidate is in the remaining list followed by the remainder. -/
theorem consumed_not_in_reinjected {σ : Type} (f : σ → UTXO → (Bool × Bool) × σ)
    (pool : List UTXO) (s0 : σ) (remainder : Option UTXO) (hnd : pool.Nodup)
    (hrem : ∀ u, remainder = some u → u ∉ pool) :
    ∀ u ∈ (consumeInputs f pool s0).1.1,
      u ∉ appendRemainder (consumeInputs f pool s0).1.2 remainder := by
  intro u hu hmem
  have hdis := consumeInputs_disjoint f pool s0 hnd u hu
  cases hr : remainder with
  | none =>
    rw [hr] at hmem
    exact hdis hmem
  | some v =>
    rw [hr] at hmem
    simp only [appendRemainder, List.mem_append, List.mem_singleton] at hmem
    rcases hmem with hmem | rfl
    · exact hdis hmem
    · exact hrem u hr (consumeInputs_consumed_subset f _ s0 u hu)

/-- C6: when the submission step of `basicOutputSend` or of
`basicOutputSendNativeTokens` succeeds, the builder submitted holds the consumed
list of the scan, and `SetBasicOutputs` is called on the sender with the
remaining list of the scan, in order, followed by the remainder as last
element when there is one, and with exactly the remaining list when there is
none.  For a sender that is not the receiver this is the pool of the sender
after the call: the remainder is in it, as its last element; and for a pool
of pairwise distinct outputs and a remainder that is not in the pool, no
consumed input is in the pool afterwards. -/
theorem C6_remainder_reinjected (env : SpamEnv) (accounts : Accounts)
    (accountSender accountReceiver : AccountRef) (additionalTag : List String)
    (b : SpamBuilder) (createdOutputs : List UTXO) (utxoRemainder : Option UTXO) :
    (Call.BuildTransactionPayloadBlockAndSend b (.ok (createdOutputs, utxoRemainder)) ∈
        (basicOutputSend env accounts accountSender accountReceiver additionalTag).calls →
      b.consumedInputs =
        (basicOutputScan env.limits (accounts accountSender) additionalTag).1.1 ∧
      (∀ u, utxoRemainder = some u →
        Call.SetBasicOutputs
            ((basicOutputScan env.limits (accounts accountSender) additionalTag).1.2 ++ [u]) ∈
          (basicOutputSend env accounts accountSender accountReceiver additionalTag).calls) ∧
      (utxoRemainder = none →
        Call.SetBasicOutputs
            (basicOutputScan env.limits (accounts accountSender) additionalTag).1.2 ∈
          (basicOutputSend env accounts accountSender accountReceiver additionalTag).calls) ∧
      (accountSender ≠ accountReceiver →
        ((basicOutputSend env accounts accountSender accountReceiver
            additionalTag).accounts accountSender).BasicOutputs =
          appendRemainder (basicOutputScan env.limits (accounts accountSender)
            additionalTag).1.2 utxoRemainder ∧
        (∀ u, utxoRemainder = some u →
          ((basicOutputSend env accounts accountSender accountReceiver
              additionalTag).accounts accountSender).BasicOutputs =
            (basicOutputScan env.limits (accounts accountSender) additionalTag).1.2 ++ [u] ∧
          u ∈ ((basicOutputSend env accounts accountSender accountReceiver
            additionalTag).accounts accountSender).BasicOutputs ∧
          ((basicOutputSend env accounts accountSender accountReceiver
            additionalTag).accounts accountSender).BasicOutputs.getLast? = some u) ∧
        (utxoRemainder = none →
          ((basicOutputSend env accounts accountSender accountReceiver
              additionalTag).accounts accountSender).BasicOutputs =
            (basicOutputScan env.limits (accounts accountSender) additionalTag).1.2) ∧
        ((accounts accountSender).BasicOutputs.Nodup →
          (∀ remainder, utxoRemainder = some remainder →
            remainder ∉ (accounts accountSender).BasicOutputs) →
          ∀ u ∈ b.consumedInputs,
            u ∉ ((basicOutputSend env accounts accountSender accountReceiver
              additionalTag).accounts accountSender).BasicOutputs))) ∧
    (Call.BuildTransactionPayloadBlockAndSend b (.ok (createdOutputs, utxoRemainder)) ∈
        (basicOutputSendNativeTokens env accounts accountSender accountReceiver
          additionalTag).calls →
      b.consumedInputs =
        (nativeTokensScan env.limits (accounts accountSender) (accounts accountReceiver)
          additionalTag).1.1 ∧
      (∀ u, utxoRemainder = some u →
        Call.SetBasicOutputs
            ((nativeTokensScan env.limits (accounts accountSender) (accounts accountReceiver)
              additionalTag).1.2 ++ [u]) ∈
          (basicOutputSendNativeTokens env accounts accountSender accountReceiver
            additionalTag).calls) ∧
      (utxoRemainder = none →
        Call.SetBasicOutputs
            (nativeTokensScan env.limits (accounts accountSender) (accounts accountReceiver)
              additionalTag).1.2 ∈
          (basicOutputSendNativeTokens env accounts accountSender accountReceiver
            additionalTag).calls) ∧
      (accountSender ≠ accountReceiver →
        ((basicOutputSendNativeTokens env accounts accountSender accountReceiver
            additionalTag).accounts accountSender).BasicOutputs =
          appendRemainder (nativeTokensScan env.limits (accounts accountSender)
            (accounts accountReceiver) additionalTag).1.2 utxoRemainder ∧
        (∀ u, utxoRemainder = some u →
          ((basicOutputSendNativeTokens env accounts accountSender accountReceiver
              additionalTag).accounts accountSender).BasicOutputs =
            (nativeTokensScan env.limits (accounts accountSender) (accounts accountReceiver)
              additionalTag).1.2 ++ [u] ∧
          u ∈ ((basicOutputSendNativeTokens env accounts accountSender accountReceiver
            additionalTag).accounts accountSender).BasicOutputs ∧
          ((basicOutputSendNativeTokens env accounts accountSender accountReceiver
            additionalTag).accounts accountSender).BasicOutputs.getLast? = some u) ∧
        (utxoRemainder = none →
          ((basicOutputSendNativeTokens env accounts accountSender accountReceiver
              additionalTag).accounts accountSender).BasicOutputs =
            (nativeTokensScan env.limits (accounts accountSender) (accounts accountReceiver)
              additionalTag).1.2) ∧
        ((accounts accountSender).BasicOutputs.Nodup →
          (∀ remainder, utxoRemainder = some remainder →
            remainder ∉ (accounts accountSender).BasicOutputs) →
          ∀ u ∈ b.consumedInputs,
            u ∉ ((basicOutputSendNativeTokens env accounts accountSender accountReceiver
              additionalTag).accounts accountSender).BasicOutputs))) := by
  constructor
  · intro hcall
    rcases basicOutputSend_cases env accounts accountSender accountReceiver additionalTag with
      ⟨_, h⟩ | ⟨_, _, h⟩ | ⟨_, _, h⟩ | ⟨_, _, b1, hadd, h⟩
    · rw [h] at hcall
      simp at hcall
    · rw [h] at hcall
      simp at hcall
    · rw [h] at hcall
      simp at hcall
    · rw [h] at hcall ⊢
      obtain ⟨rfl, _, hsome, hnone, hpool⟩ :=
        submitAndBook_reinjected (no_submit_in_scan_calls _) hcall
      have hb : b.consumedInputs =
          (basicOutputScan env.limits (accounts accountSender) additionalTag).1.1 := by
        rw [AddOutput_consumedInputs hadd, basicOutputScan_builder]
      refine ⟨hb, hsome, hnone, ?_⟩
      intro hsr
      obtain ⟨hp, hp1, hp2⟩ := hpool hsr
      refine ⟨hp, hp1, hp2, ?_⟩
      intro hnd hrem u hu
      rw [hp]
      rw [hb] at hu
      exact consumed_not_in_reinjected _ _ _ _ hnd hrem u hu
  · intro hcall
    rcases basicOutputSendNativeTokens_cases env accounts accountSender accountReceiver
      additionalTag with ⟨_, h⟩ | ⟨_, _, h⟩ | ⟨_, _, h⟩
    · rw [h] at hcall
      simp at hcall
    · rw [h] at hcall
      simp at hcall
    · rw [h] at hcall ⊢
      obtain ⟨rfl, _, hsome, hnone, hpool⟩ :=
        submitAndBook_reinjected (no_submit_in_scan_calls _) hcall
      have hb := (nativeTokensScan_builder env.limits (accounts accountSender)
        (accounts accountReceiver) additionalTag).1
      refine ⟨hb, hsome, hnone, ?_⟩
      intro hsr
      obtain ⟨hp, hp1, hp2⟩ := hpool hsr
      refine ⟨hp, hp1, hp2, ?_⟩
      intro hnd hrem u hu
      rw [hp]
      rw [hb] at hu
      exact consumed_not_in_reinjected _ _ _ _ hnd hrem u hu

/-- The builder `basicOutputSend` submits for the sample pool. -/
theorem sample_basic_call :
    Call.BuildTransactionPayloadBlockAndSend
        { accountSender := 10, additionalTag := [], consumedInputs := [tokenFreeA, tokenFreeB],
          createdOutputs := [{ Amount := 0, NativeTokens := [], Address := 20 }] }
        (.ok ([{ outputID := 8, output := { Amount := 0, NativeTokens := [], Address := 20 } }],
          some remainderUTXO)) ∈
      (basicOutputSend sampleSpamEnv sampleAccounts 0 1 []).calls := by
  decide

/-- The sample pool: after `basicOutputSend` the pool of the sender is the
token-bearing output followed by the remainder, which is its last element,
and the consumed `tokenFreeA` is not in it. -/
theorem C6_remainder_reinjected_witness :
    ((basicOutputSend sampleSpamEnv sampleAccounts 0 1 []).accounts 0).BasicOutputs =
        (basicOutputScan sampleSpamEnv.limits (sampleAccounts 0) []).1.2 ++ [remainderUTXO] ∧
      remainderUTXO ∈
        ((basicOutputSend sampleSpamEnv sampleAccounts 0 1 []).accounts 0).BasicOutputs ∧
      ((basicOutputSend sampleSpamEnv sampleAccounts 0 1 []).accounts 0).BasicOutputs.getLast? =
        some remainderUTXO ∧
      tokenFreeA ∉
        ((basicOutputSend sampleSpamEnv sampleAccounts 0 1 []).accounts 0).BasicOutputs :=
  have h := ((C6_remainder_reinjected sampleSpamEnv sampleAccounts 0 1 [] _ _ _).1
    sample_basic_call).2.2.2 (by decide)
  ⟨(h.2.1 remainderUTXO rfl).1, (h.2.1 remainderUTXO rfl).2.1, (h.2.1 remainderUTXO rfl).2.2,
    h.2.2.2 (by decide) (fun remainder hr => by cases hr; decide) tokenFreeA (by decide)⟩

/-- C7: the closure of `basicOutputSendNativeTokens` leaves the builder as it is
and asks to go on for a token-free output; for a token-bearing output it
replaces the builder by the clone when `AddInput` and `AddOutput` both succeed
on the clone, and otherwise leaves the builder as it is and signals abort.
After the scan the builder holds the consumed list of the partitioner as its
inputs, in order, and as many created outputs, the i-th being the output of
the i-th input with the address of the receiver and its amount and native
tokens kept. -/
theorem C7_speculative_clone_commit (lim : Limits) (accountSender accountReceiver : LedgerAccount)
    (additionalTag : List String) :
    (∀ (spamBuilder : SpamBuilder) (basicInput : UTXO),
      (basicInput.output.NativeTokens = [] →
        basicOutputSendNativeTokensPredicate lim accountReceiver spamBuilder basicInput =
          ((false, false), spamBuilder)) ∧
      (basicInput.output.NativeTokens ≠ [] →
        ∀ tmp1 tmp2, spamBuilder.Clone.AddInput lim basicInput = (true, tmp1) →
          tmp1.AddOutput lim (basicInput.sentTo accountReceiver) = (true, tmp2) →
          basicOutputSendNativeTokensPredicate lim accountReceiver spamBuilder basicInput =
            ((true, false), tmp2)) ∧
      (basicInput.output.NativeTokens ≠ [] →
        (spamBuilder.Clone.AddInput lim basicInput).1 = false ∨
          ((spamBuilder.Clone.AddInput lim basicInput).2.AddOutput lim
            (basicInput.sentTo accountReceiver)).1 = false →
        basicOutputSendNativeTokensPredicate lim accountReceiver spamBuilder basicInput =
          ((false, true), spamBuilder))) ∧
    (nativeTokensScan lim accountSender accountReceiver additionalTag).2.consumedInputs =
      (nativeTokensScan lim accountSender accountReceiver additionalTag).1.1 ∧
    (nativeTokensScan lim accountSender accountReceiver additionalTag).2.consumedInputs.length =
      (nativeTokensScan lim accountSender accountReceiver additionalTag).2.createdOutputs.length ∧
    (∀ (i : Nat) (u : UTXO),
      (nativeTokensScan lim accountSender accountReceiver additionalTag).2.consumedInputs[i]? =
        some u →
      ∃ o, (nativeTokensScan lim accountSender accountReceiver additionalTag).2.createdOutputs[i]? =
          some o ∧
        o = { u.output with Address := accountReceiver.Address } ∧
        o.Address = accountReceiver.Address ∧ o.NativeTokens = u.output.NativeTokens ∧
        o.Amount = u.output.Amount) := by
  obtain ⟨hin, hout⟩ := nativeTokensScan_builder lim accountSender accountReceiver additionalTag
  refine ⟨?_, hin, ?_, ?_⟩
  · intro b u
    refine ⟨?_, ?_, ?_⟩
    · intro h
      exact nativePredicate_no_tokens ((hasNativeTokens_false_iff u).2 h)
    · intro h tmp1 tmp2 h1 h2
      have ht := (hasNativeTokens_true_iff u).2 h
      unfold SpamBuilder.Clone SpamBuilder.AddInput at h1
      split_ifs at h1 with hroom1
      · simp only [Prod.mk.injEq, true_and] at h1
        subst h1
        unfold SpamBuilder.AddOutput at h2
        split_ifs at h2 with hroom2
        · simp only [Prod.mk.injEq, true_and] at h2
          subst h2
          exact nativePredicate_added ht hroom1 hroom2
        · simp at h2
      · simp at h1
    · intro h hfail
      have ht := (hasNativeTokens_true_iff u).2 h
      apply nativePredicate_full ht
      rintro ⟨hroom1, hroom2⟩
      rcases hfail with hfail | hfail
      · simp [SpamBuilder.Clone, SpamBuilder.AddInput, hroom1] at hfail
      · simp only [SpamBuilder.Clone, SpamBuilder.AddInput, hroom1, if_true,
          SpamBuilder.AddOutput] at hfail
        simp [hroom2] at hfail
  · rw [hin, hout, List.length_map]
  · intro i u hu
    rw [hin] at hu
    refine ⟨u.sentTo accountReceiver, ?_, rfl, rfl, rfl, rfl⟩
    rw [hout, List.getElem?_map, hu]
    rfl

/-- The sample pool: a token-bearing output is taken into an empty builder
together with the output created for it. -/
theorem C7_speculative_clone_commit_witness :
    basicOutputSendNativeTokensPredicate protocolLimits sampleReceiver
        (NewSpamBuilder sampleSender []) tokenBearing =
      ((true, false),
        { accountSender := 10, additionalTag := [], consumedInputs := [tokenBearing],
          createdOutputs := [tokenBearing.sentTo sampleReceiver] }) :=
  ((C7_speculative_clone_commit protocolLimits sampleSender sampleReceiver []).1
      (NewSpamBuilder sampleSender []) tokenBearing).2.1 (by decide)
    { accountSender := 10, additionalTag := [], consumedInputs := [tokenBearing],
      createdOutputs := [] }
    { accountSender := 10, additionalTag := [], consumedInputs := [tokenBearing],
      createdOutputs := [tokenBearing.sentTo sampleReceiver] } (by decide) (by decide)

/-- C9: for a sender whose pool is empty, `basicOutputSend` and
`basicOutputSendNativeTokens` return an error that wraps `ErrNoUTXOAvailable`,
having made no call (no builder, no scan, no submission, no booking) and
having left all accounts, the sender and the receiver among them, as they
were. -/
theorem C9_empty_pool (env : SpamEnv) (accounts : Accounts)
    (accountSender accountReceiver : AccountRef) (additionalTag : List String)
    (hempty : (accounts accountSender).BasicOutputs = []) :
    basicOutputSend env accounts accountSender accountReceiver additionalTag =
      { calls := [], accounts := accounts,
        result := .fail (.wrapped .basicOutputs .ErrNoUTXOAvailable) } ∧
    basicOutputSendNativeTokens env accounts accountSender accountReceiver additionalTag =
      { calls := [], accounts := accounts,
        result := .fail (.wrapped .basicOutputs .ErrNoUTXOAvailable) } ∧
    (GoError.wrapped .basicOutputs .ErrNoUTXOAvailable).Is .ErrNoUTXOAvailable = true := by
  refine ⟨?_, ?_, by decide⟩
  · simp [basicOutputSend, hempty]
  · simp [basicOutputSendNativeTokens, hempty]

/-- The account without outputs. -/
theorem C9_empty_pool_witness :
    basicOutputSend sampleSpamEnv emptyAccounts 0 1 [] =
      { calls := [], accounts := emptyAccounts,
        result := .fail (.wrapped .basicOutputs .ErrNoUTXOAvailable) } ∧
    basicOutputSendNativeTokens sampleSpamEnv emptyAccounts 0 1 [] =
      { calls := [], accounts := emptyAccounts,
        result := .fail (.wrapped .basicOutputs .ErrNoUTXOAvailable) } ∧
    (GoError.wrapped .basicOutputs .ErrNoUTXOAvailable).Is .ErrNoUTXOAvailable = true :=
  C9_empty_pool sampleSpamEnv emptyAccounts 0 1 [] (by decide)

/-- C10, as stated, fails: in the sample pool the submission step fails with
`other 3` after it has reset the accounts; `basicOutputSend` and
`basicOutputSendNativeTokens` return that error, and the pool of the sender,
three outputs before the call, is empty after it. -/
theorem C10_counterexample :
    (sampleAccounts 0).BasicOutputs = [tokenFreeA, tokenBearing, tokenFreeB] ∧
    (basicOutputSend resettingSpamEnv sampleAccounts 0 1 []).result = .fail (.other 3) ∧
    ((basicOutputSend resettingSpamEnv sampleAccounts 0 1 []).accounts 0).BasicOutputs = [] ∧
    (basicOutputSendNativeTokens resettingSpamEnv sampleAccounts 0 1 []).result =
      .fail (.other 3) ∧
    ((basicOutputSendNativeTokens resettingSpamEnv sampleAccounts 0 1 []).accounts
      0).BasicOutputs = [] := by
  decide

/-- What an error return of a send function that is `submitAndBook` or an
earlier return says. -/
theorem error_run_spec {env : SpamEnv} {accounts : Accounts} {s r : AccountRef}
    {b0 : SpamBuilder} {remaining : List UTXO} {run : SendRun} {e : GoError}
    (hb0 : b0.consumedInputs ≠ [])
    (hrun : run = submitAndBook env [.NewSpamBuilder, .consumeInputs (accounts s).BasicOutputs]
      accounts s r b0 remaining)
    (he : run.result = .fail e) :
    (∀ outputs, Call.SetBasicOutputs outputs ∉ run.calls) ∧
    (∀ created, Call.bookCreatedOutputs created ∉ run.calls) ∧
    ((∀ b res, Call.BuildTransactionPayloadBlockAndSend b res ∉ run.calls) →
      run.accounts = accounts) ∧
    (∀ b res, Call.BuildTransactionPayloadBlockAndSend b res ∈ run.calls →
      res = .error e ∧
      env.BuildTransactionPayloadBlockAndSend b accounts = (.error e, run.accounts) ∧
      b.consumedInputs ≠ []) := by
  subst hrun
  obtain ⟨hs, hcalls⟩ := submitAndBook_fail he
  rw [hcalls]
  refine ⟨by simp, by simp, ?_, ?_⟩
  · intro hno
    exact absurd (by simp) (hno b0 (.error e))
  · intro b res hmem
    simp only [List.cons_append, List.nil_append, List.mem_cons, reduceCtorEq,
      Call.BuildTransactionPayloadBlockAndSend.injEq, List.mem_nil_iff, or_false,
      false_or] at hmem
    obtain ⟨rfl, rfl⟩ := hmem
    exact ⟨rfl, hs, hb0⟩

/-- A failed submission is what `submitAndBook` returns. -/
theorem submitAndBook_error_returned {env : SpamEnv} {accounts : Accounts} {s r : AccountRef}
    {b b1 : SpamBuilder} {remaining : List UTXO} {err : GoError} {pool : List UTXO}
    (h : Call.BuildTransactionPayloadBlockAndSend b1 (.error err) ∈
      (submitAndBook env [.NewSpamBuilder, .consumeInputs pool] accounts s r b
        remaining).calls) :
    (submitAndBook env [.NewSpamBuilder, .consumeInputs pool] accounts s r b
      remaining).result = .fail err := by
  obtain ⟨rfl, hres⟩ := submitAndBook_call (no_submit_in_scan_calls _) h
  cases hs : env.BuildTransactionPayloadBlockAndSend b1 accounts with
  | mk res0 accounts1 =>
    rw [hs] at hres
    simp only at hres
    subst hres
    rw [submitAndBook_error hs]

/-- C10, amended: a call of `basicOutputSend` or `basicOutputSendNativeTokens`
that returns an error has called neither `SetBasicOutputs` nor
`bookCreatedOutputs`.  If it returned before the submission step (empty pool,
nothing survives the filter, output cannot be added), all accounts, the pool
of the sender among them, are as they were before the call.  If the
submission step was called, that step failed with the very error returned, on
a builder that already held inputs, and the accounts are as that step left
them.  A failed submission is always returned as the error of the call. -/
theorem C10_error_leaves_accounts (env : SpamEnv) (accounts : Accounts)
    (accountSender accountReceiver : AccountRef) (additionalTag : List String) :
    (∀ e, (basicOutputSend env accounts accountSender accountReceiver
        additionalTag).result = .fail e →
      (∀ outputs, Call.SetBasicOutputs outputs ∉
        (basicOutputSend env accounts accountSender accountReceiver additionalTag).calls) ∧
      (∀ created, Call.bookCreatedOutputs created ∉
        (basicOutputSend env accounts accountSender accountReceiver additionalTag).calls) ∧
      ((∀ b res, Call.BuildTransactionPayloadBlockAndSend b res ∉
          (basicOutputSend env accounts accountSender accountReceiver additionalTag).calls) →
        (basicOutputSend env accounts accountSender accountReceiver
          additionalTag).accounts = accounts) ∧
      (∀ b res, Call.BuildTransactionPayloadBlockAndSend b res ∈
          (basicOutputSend env accounts accountSender accountReceiver additionalTag).calls →
        res = .error e ∧
        env.BuildTransactionPayloadBlockAndSend b accounts =
          (.error e, (basicOutputSend env accounts accountSender accountReceiver
            additionalTag).accounts) ∧
        b.consumedInputs ≠ [])) ∧
    (∀ b err, Call.BuildTransactionPayloadBlockAndSend b (.error err) ∈
        (basicOutputSend env accounts accountSender accountReceiver additionalTag).calls →
      (basicOutputSend env accounts accountSender accountReceiver additionalTag).result =
        .fail err) ∧
    (∀ e, (basicOutputSendNativeTokens env accounts accountSender accountReceiver
        additionalTag).result = .fail e →
      (∀ outputs, Call.SetBasicOutputs outputs ∉
        (basicOutputSendNativeTokens env accounts accountSender accountReceiver
          additionalTag).calls) ∧
      (∀ created, Call.bookCreatedOutputs created ∉
        (basicOutputSendNativeTokens env accounts accountSender accountReceiver
          additionalTag).calls) ∧
      ((∀ b res, Call.BuildTransactionPayloadBlockAndSend b res ∉
          (basicOutputSendNativeTokens env accounts accountSender accountReceiver
            additionalTag).calls) →
        (basicOutputSendNativeTokens env accounts accountSender accountReceiver
          additionalTag).accounts = accounts) ∧
      (∀ b res, Call.BuildTransactionPayloadBlockAndSend b res ∈
          (basicOutputSendNativeTokens env accounts accountSender accountReceiver
            additionalTag).calls →
        res = .error e ∧
        env.BuildTransactionPayloadBlockAndSend b accounts =
          (.error e, (basicOutputSendNativeTokens env accounts accountSender accountReceiver
            additionalTag).accounts) ∧
        b.consumedInputs ≠ [])) ∧
    (∀ b err, Call.BuildTransactionPayloadBlockAndSend b (.error err) ∈
        (basicOutputSendNativeTokens env accounts accountSender accountReceiver
          additionalTag).calls →
      (basicOutputSendNativeTokens env accounts accountSender accountReceiver
        additionalTag).result = .fail err) := by
  refine ⟨?_, ?_, ?_, ?_⟩
  · intro e he
    rcases basicOutputSend_cases env accounts accountSender accountReceiver additionalTag with
      ⟨_, h⟩ | ⟨_, _, h⟩ | ⟨_, _, h⟩ | ⟨_, hc, b1, hadd, h⟩
    · rw [h]
      exact ⟨by simp, by simp, fun _ => rfl, by simp⟩
    · rw [h]
      exact ⟨by simp, by simp, fun _ => rfl, by simp⟩
    · rw [h]
      exact ⟨by simp, by simp, fun _ => rfl, by simp⟩
    · exact error_run_spec (by rw [AddOutput_consumedInputs hadd]; exact hc) h he
  · intro b err hmem
    rcases basicOutputSend_cases env accounts accountSender accountReceiver additionalTag with
      ⟨_, h⟩ | ⟨_, _, h⟩ | ⟨_, _, h⟩ | ⟨_, hc, b1, hadd, h⟩
    · rw [h] at hmem
      simp at hmem
    · rw [h] at hmem
      simp at hmem
    · rw [h] at hmem
      simp at hmem
    · rw [h] at hmem ⊢
      exact submitAndBook_error_returned hmem
  · intro e he
    rcases basicOutputSendNativeTokens_cases env accounts accountSender accountReceiver
      additionalTag with ⟨_, h⟩ | ⟨_, _, h⟩ | ⟨_, hc, h⟩
    · rw [h]
      exact ⟨by simp, by simp, fun _ => rfl, by simp⟩
    · rw [h]
      exact ⟨by simp, by simp, fun _ => rfl, by simp⟩
    · exact error_run_spec hc h he
  · intro b err hmem
    rcases basicOutputSendNativeTokens_cases env accounts accountSender accountReceiver
      additionalTag with ⟨_, h⟩ | ⟨_, _, h⟩ | ⟨_, hc, h⟩
    · rw [h] at hmem
      simp at hmem
    · rw [h] at hmem
      simp at hmem
    · rw [h] at hmem ⊢
      exact submitAndBook_error_returned hmem

/-- The sample pool with a submission step that resets the accounts and fails
with `other 3`: after `basicOutputSend` the accounts are as the submission
step left them, and `basicOutputSendNativeTokens` returns the error of the
submission step. -/
theorem C10_error_leaves_accounts_witness :
    resettingSpamEnv.BuildTransactionPayloadBlockAndSend
        { accountSender := 10, additionalTag := [], consumedInputs := [tokenFreeA, tokenFreeB],
          createdOutputs := [{ Amount := 0, NativeTokens := [], Address := 20 }] }
        sampleAccounts =
      (.error (.other 3), (basicOutputSend resettingSpamEnv sampleAccounts 0 1 []).accounts) ∧
    (basicOutputSendNativeTokens resettingSpamEnv sampleAccounts 0 1 []).result =
      .fail (.other 3) :=
  ⟨(((C10_error_leaves_accounts resettingSpamEnv sampleAccounts 0 1 []).1 (.other 3)
      (by decide)).2.2.2
      { accountSender := 10, additionalTag := [], consumedInputs := [tokenFreeA, tokenFreeB],
        createdOutputs := [{ Amount := 0, NativeTokens := [], Address := 20 }] }
      (.error (.other 3)) (by decide)).2.1,
    (C10_error_leaves_accounts resettingSpamEnv sampleAccounts 0 1 []).2.2.2
      { accountSender := 10, additionalTag := [], consumedInputs := [tokenBearing],
        createdOutputs := [tokenBearing.sentTo sampleReceiver] } (.other 3) (by decide)⟩

end InxSpammer
